import Mathlib

/-!
# migrate-cli (`cmd/migrate-mariadb/main.go`)

A shallow embedding of the command-line program and of its helper
`maxMigrationVersion`, followed by the properties of the specification that
concern them.

Conventions of the embedding.

* A Go `string` is a `GoString`, a list of characters.  Every pattern the
  program compares against (`.up.sql`, `_`, `/`, the decimal digits) is ASCII.
* `filepath.Walk(root, fn)` calls `fn` once for every path it visits, in order;
  it is represented by the list of the visited paths.  The callbacks of the
  program always return `nil`, so the whole list is processed unless the
  callback ends the process.
* `uint` is the 64-bit unsigned word; arithmetic on it is taken modulo `2^64`.
* An `error` value is represented by its message (`Option GoString`, `none`
  being `nil`).
* Path handling follows the Unix build (`/` is the only separator).
-/

namespace MigrateCli

/-- A Go string, as the list of its characters. -/
abbrev GoString := List Char

deriving instance DecidableEq for Except

/-! ## Library functions used by the program -/

/-- Go `strings.HasSuffix(s, suffix)`. -/
def HasSuffix (s suffix : GoString) : Bool :=
  suffix.isSuffixOf s

/-- Go `strings.HasPrefix(s, pre)`. -/
def HasPrefix (s pre : GoString) : Bool :=
  pre.isPrefixOf s

/-- Go `strings.TrimPrefix(s, pre)`. -/
def TrimPrefix (s pre : GoString) : GoString :=
  if HasPrefix s pre then s.drop pre.length else s

/-- Go `strings.Contains(s, substr)`. -/
def Contains (s substr : GoString) : Bool :=
  decide (substr <:+: s)

/-- Go `filepath.Split(path)`: the path is cut right after its last separator;
the result is the directory part and the file part. -/
def Split (path : GoString) : GoString × GoString :=
  ((path.reverse.dropWhile (fun c => c != '/')).reverse,
   (path.reverse.takeWhile (fun c => c != '/')).reverse)

/-- Go `strings.SplitN(s, "_", 2)`: one piece when `s` holds no underscore,
otherwise the text before the first underscore and the text after it. -/
def SplitN2 (s : GoString) : List GoString :=
  let before := s.takeWhile (fun c => c != '_')
  if before.length = s.length then [s] else [before, s.drop (before.length + 1)]

/-- Width of the Go `uint` and `uint64` types. -/
def uintBits : Nat := 64

/-- One more than the largest `uint64`. -/
def uintModulus : Nat := 2 ^ uintBits

/-- The digit loop of Go `strconv.ParseUint(s, 10, 64)`, with the accumulator
`n`.  `none` stands for a returned error (syntax or range). -/
def parseUintLoop : GoString → Nat → Option Nat
  | [], n => some n
  | c :: cs, n =>
    if '0' ≤ c ∧ c ≤ '9' then
      let d := c.toNat - '0'.toNat
      -- cutoff = maxUint64/10 + 1
      if n ≥ (uintModulus - 1) / 10 + 1 then none
      else
        let n10 := (n * 10) % uintModulus
        let n1 := (n10 + d) % uintModulus
        if n1 < n10 ∨ n1 > uintModulus - 1 then none
        else parseUintLoop cs n1
    else none

/-- Go `strconv.ParseUint(s, 10, 64)`; `none` when an error is returned. -/
def ParseUint (s : GoString) : Option Nat :=
  if s = [] then none else parseUintLoop s 0

/-- Go `strconv.Atoi(s)` on a 64-bit platform: an optional sign, then the
digits, the value within the range of `int`; `none` when an error is
returned. -/
def Atoi (s : GoString) : Option Int :=
  let neg : Bool := match s with
    | c :: _ => c == '-'
    | [] => false
  let body : GoString := match s with
    | c :: rest => if c = '-' ∨ c = '+' then rest else s
    | [] => s
  match ParseUint body with
  | none => none
  | some un =>
    if !neg ∧ un ≥ 2 ^ (uintBits - 1) then none
    else if neg ∧ un > 2 ^ (uintBits - 1) then none
    else some (if neg then -(un : Int) else (un : Int))

/-- The digit of value `d` (`d < 10`) as a character. -/
def digitChar (d : Nat) : Char :=
  Char.ofNat ('0'.toNat + d)

/-- The digit loop of the integer formatting of Go `fmt`: digits are produced
from the least significant one and put in front of what is already there.
The first argument bounds the number of rounds; a `uint64` has at most 20
digits. -/
def formatLoop : Nat → Nat → GoString → GoString
  | 0, u, acc => digitChar (u % 10) :: acc
  | fuel + 1, u, acc =>
    if u ≥ 10 then formatLoop fuel (u / 10) (digitChar (u % 10) :: acc)
    else digitChar u :: acc

/-- The verb `%d` of Go `fmt.Sprintf` on a `uint`. -/
def formatUint (u : Nat) : GoString :=
  formatLoop 20 u []

/-- The verb `%05d` of Go `fmt.Sprintf` on a `uint`: the decimal digits, with
zeros in front up to a width of five. -/
def formatUint05 (u : Nat) : GoString :=
  List.replicate (5 - (formatUint u).length) '0' ++ formatUint u

/-- The elements of a path between its separators. -/
def splitSlash : GoString → List GoString
  | [] => [[]]
  | c :: cs =>
    if c = '/' then [] :: splitSlash cs
    else
      match splitSlash cs with
      | [] => [[c]]
      | h :: t => (c :: h) :: t

/-- One element processed by `Clean`; the elements kept so far are in `stack`,
the last one first.  A `..` removes the element before it, stays when there is
none to remove in a relative path, and is dropped at the root. -/
def cleanPush (rooted : Bool) (stack : List GoString) (e : GoString) : List GoString :=
  if e = "..".toList then
    match stack with
    | [] => if rooted then [] else [e]
    | top :: rest => if top = "..".toList then e :: stack else rest
  else e :: stack

/-- The elements of a path put together again, a separator between two. -/
def joinSlash : List GoString → GoString
  | [] => []
  | [e] => e
  | e :: e2 :: rest => e ++ '/' :: joinSlash (e2 :: rest)

/-- Go `filepath.Clean(path)`: empty elements and `.` are dropped, `..` is
resolved, the result is `.` when nothing is left. -/
def Clean (path : GoString) : GoString :=
  let rooted := HasPrefix path ['/']
  let elems := (splitSlash path).filter (fun e => decide (e ≠ [] ∧ e ≠ ".".toList))
  let stack := elems.foldl (cleanPush rooted) []
  let out := (if rooted then ['/'] else []) ++ joinSlash stack.reverse
  if out = [] then ['.'] else out

/-- Go `filepath.Join(dir, file)`: empty leading elements are skipped, the rest
is joined with the separator and cleaned. -/
def Join (dir file : GoString) : GoString :=
  if dir ≠ [] then Clean (dir ++ '/' :: file)
  else if file ≠ [] then Clean file
  else []

/-! ## `maxMigrationVersion` -/

/-- The number a visited path contributes in `maxMigrationVersion`: the
callback looks only at paths ending in `.sql`, takes the file part, the text
before its first underscore, and parses it. -/
def sqlVersion (path : GoString) : Option Nat :=
  if HasSuffix path ".sql".toList then
    let fname := (Split path).2
    let num := (SplitN2 fname).headD []
    ParseUint num
  else none

/-- The callback of the walk in `maxMigrationVersion`, as a step on `maxn`. -/
def maxVisit (maxn : Nat) (path : GoString) : Nat :=
  match sqlVersion path with
  | some uintNum => if uintNum % uintModulus > maxn then uintNum % uintModulus else maxn
  | none => maxn

/-- The function `maxMigrationVersion`, on the paths visited by the walk of
`migrationsPath`. -/
def maxMigrationVersion (walk : List GoString) : Nat :=
  walk.foldl maxVisit 0

/-! ## The `check` command -/

/-- The two maps of the `check` command, each as the list of its keys. -/
structure CheckState where
  upfiles : List GoString
  downfiles : List GoString
deriving DecidableEq, Repr

/-- Text of a path that `check` uses as key: the file part up to its first
underscore. -/
def numOf (path : GoString) : GoString :=
  (SplitN2 (Split path).2).headD []

/-- The callback of the walk in `check`.  `Except.error (num, path)` is the
process exit with status 9 after printing
`Duplicate migration version num (path)`. -/
def checkVisit (st : CheckState) (path : GoString) :
    Except (GoString × GoString) CheckState :=
  let afterUp : Except (GoString × GoString) CheckState :=
    if HasSuffix path ".up.sql".toList then
      let num := numOf path
      if num ∈ st.upfiles then Except.error (num, path)
      else Except.ok { st with upfiles := num :: st.upfiles }
    else Except.ok st
  match afterUp with
  | Except.error e => Except.error e
  | Except.ok st1 =>
    if HasSuffix path ".down.sql".toList then
      let num := numOf path
      if num ∈ st1.downfiles then Except.error (num, path)
      else Except.ok { st1 with downfiles := num :: st1.downfiles }
    else Except.ok st1

/-- The walk of `check` from a given state of the two maps. -/
def checkWalkFrom : List GoString → CheckState → Except (GoString × GoString) CheckState
  | [], st => Except.ok st
  | path :: rest, st =>
    match checkVisit st path with
    | Except.error e => Except.error e
    | Except.ok st1 => checkWalkFrom rest st1

/-- The walk of `check`, both maps empty at the start. -/
def checkWalk (walk : List GoString) : Except (GoString × GoString) CheckState :=
  checkWalkFrom walk ⟨[], []⟩

/-- The key `check` records in `upfiles` for a path, when it records one. -/
def upKey (path : GoString) : Option GoString :=
  if HasSuffix path ".up.sql".toList then some (numOf path) else none

/-- The key `check` records in `downfiles` for a path, when it records one. -/
def downKey (path : GoString) : Option GoString :=
  if HasSuffix path ".down.sql".toList then some (numOf path) else none

/-- The keys `key` gives on `l` are pairwise different and none is in `seen`. -/
def KeysFresh (key : GoString → Option GoString) (l : List GoString)
    (seen : List GoString) : Prop :=
  (l.filterMap key).Nodup ∧ ∀ k ∈ l.filterMap key, k ∉ seen

/-- No key is recorded twice by the walk of `l` started from the maps `st`. -/
def NoClash (l : List GoString) (st : CheckState) : Prop :=
  KeysFresh upKey l st.upfiles ∧ KeysFresh downKey l st.downfiles

/-! ## The program -/

/-- A call from the program into the migration library. -/
inductive LibCall where
  /-- The driver: `mysql.WithInstance(db, &mysql.Config{})`. -/
  | withInstance
  /-- The call `migrate.NewWithDatabaseInstance(migrations, "mysql", driver)`. -/
  | newWithDatabaseInstance (migrations : GoString)
  /-- The method `m.Up()`. -/
  | up
  /-- The method `m.Down()`. -/
  | down
  /-- The method `m.Force(version)`. -/
  | force (version : Int)
  /-- The method `m.Steps(n)`. -/
  | steps (n : Int)
  /-- The method `m.Migrate(version)`. -/
  | migrate (version : Nat)
deriving DecidableEq, Repr

/-- Everything a run of the program reads: flags, arguments, environment
variables, the result of `sql.Open`, the migration library acting on the store
(of state `σ`), the directory walk and the result of `os.WriteFile`. -/
structure Input (σ : Type) where
  /-- Flag `-database-url` (default empty). -/
  flagDatabaseURL : GoString
  /-- Flag `-command` (default `_default_`). -/
  flagCommand : GoString
  /-- Flag `-migrations` (default empty). -/
  flagMigrations : GoString
  /-- The arguments left after the flags, `flag.Args()`. -/
  flagArgs : List GoString
  /-- Variable `DATABASE_URL`. -/
  envDatabaseURL : GoString
  /-- Variable `MIGRATION_COMMAND`. -/
  envMigrationCommand : GoString
  /-- Variable `MIGRATION_URL`. -/
  envMigrationURL : GoString
  /-- Variable `SKIP_ALL`. -/
  envSkipAll : GoString
  /-- The error returned by `sql.Open("mysql", dsn)`; the handle is `nil`
  exactly when there is one. -/
  sqlOpen : GoString → Option GoString
  /-- The migration library: a call changes the store and returns an error. -/
  lib : LibCall → σ → σ × Option GoString
  /-- The store before the run. -/
  store : σ
  /-- The paths `filepath.Walk` visits from a root. -/
  walk : GoString → List GoString
  /-- The error returned by `os.WriteFile(path, data, 0644)`. -/
  writeFile : GoString → GoString → Option GoString

/-- The place where a run ends. -/
inductive ExitPoint where
  | migrationsRequired
  | openFailed
  | skipAll
  | driverFailed
  | driverFailed2
  | forceNoVersion
  | forceBadVersion
  | stepNoCount
  | stepBadCount
  | newNoName
  | writeUpFailed
  | writeDownFailed
  | created
  | duplicate (num path : GoString)
  | allUnique
  | badCommand
  | noChange
  | failed (msg : GoString)
  | success
deriving DecidableEq, Repr

/-- What a run leaves behind: the exit status, the place where it ended, the
store, the library calls made (each with the error it returned) and the files
written (path and content). -/
structure Outcome (σ : Type) where
  status : Nat
  point : ExitPoint
  store : σ
  calls : List (LibCall × Option GoString)
  written : List (GoString × GoString)
deriving DecidableEq, Repr

/-- Lines 33-39: the database URL in effect. -/
def resolveDatabaseURL {σ : Type} (i : Input σ) : GoString :=
  if i.envDatabaseURL ≠ [] then
    if i.flagDatabaseURL ≠ [] then i.flagDatabaseURL else i.envDatabaseURL
  else i.flagDatabaseURL

/-- Lines 41-51: the command in effect. -/
def resolveCommand {σ : Type} (i : Input σ) : GoString :=
  let c :=
    if i.envMigrationCommand ≠ [] then
      if i.flagCommand ≠ "_default_".toList then i.flagCommand else i.envMigrationCommand
    else i.flagCommand
  if c = "_default_".toList then "sync".toList else c

/-- Lines 53-59: the migrations location in effect. -/
def resolveMigrations {σ : Type} (i : Input σ) : GoString :=
  if i.envMigrationURL ≠ [] then
    if i.flagMigrations ≠ [] then i.flagMigrations else i.envMigrationURL
  else i.flagMigrations

/-- Lines 66-72: `multiStatements=true` is added to the URL when absent. -/
def withMultiStatements (url : GoString) : GoString :=
  if !Contains url "multiStatements".toList then
    if !Contains url "?".toList then url ++ "?multiStatements=true".toList
    else url ++ "&multiStatements=true".toList
  else url

/-- Lines 197-209: the end of a run after the library call of the command. -/
def finish {σ : Type} (st : σ) (calls : List (LibCall × Option GoString))
    (err : Option GoString) : Outcome σ :=
  match err with
  | some msg =>
    if msg = "no change".toList then ⟨0, ExitPoint.noChange, st, calls, []⟩
    else ⟨10, ExitPoint.failed msg, st, calls, []⟩
  | none => ⟨0, ExitPoint.success, st, calls, []⟩

/-- A library call of a command followed by the end of the run. -/
def callAndFinish {σ : Type} (i : Input σ) (st : σ)
    (calls : List (LibCall × Option GoString)) (c : LibCall) : Outcome σ :=
  let r := i.lib c st
  finish r.1 (calls ++ [(c, r.2)]) r.2

/-- The `new` command after the check of its argument (lines 145-160). -/
def newCommand {σ : Type} (i : Input σ) (st : σ)
    (calls : List (LibCall × Option GoString)) (migrations name : GoString) : Outcome σ :=
  let mainDir := TrimPrefix migrations "file://".toList
  let maxn := maxMigrationVersion (i.walk mainDir)
  let updata := "-- write your UP migration here\n".toList
  let downdata := "-- write your DOWN migration here\n".toList
  let fnup := Join mainDir
    (formatUint05 ((maxn + 1) % uintModulus) ++ "_".toList ++ name ++ ".up.sql".toList)
  let fndown := Join mainDir
    (formatUint05 ((maxn + 1) % uintModulus) ++ "_".toList ++ name ++ ".down.sql".toList)
  match i.writeFile fnup updata with
  | some _ => ⟨7, ExitPoint.writeUpFailed, st, calls, []⟩
  | none =>
    match i.writeFile fndown downdata with
    | some _ => ⟨8, ExitPoint.writeDownFailed, st, calls, [(fnup, updata)]⟩
    | none => ⟨0, ExitPoint.created, st, calls, [(fnup, updata), (fndown, downdata)]⟩

/-- The `check` command (lines 162-187). -/
def checkCommand {σ : Type} (i : Input σ) (st : σ)
    (calls : List (LibCall × Option GoString)) (migrations : GoString) : Outcome σ :=
  let mainDir := TrimPrefix migrations "file://".toList
  match checkWalk (i.walk mainDir) with
  | Except.error (num, path) => ⟨9, ExitPoint.duplicate num path, st, calls, []⟩
  | Except.ok _ => ⟨0, ExitPoint.allUnique, st, calls, []⟩

/-- The command switch (lines 107-196) and the end of the run. -/
def dispatch {σ : Type} (i : Input σ) (st : σ)
    (calls : List (LibCall × Option GoString)) (command migrations : GoString) : Outcome σ :=
  if command = "up".toList ∨ command = "u".toList then
    callAndFinish i st calls LibCall.up
  else if command = "down".toList ∨ command = "d".toList then
    callAndFinish i st calls LibCall.down
  else if command = "force".toList ∨ command = "f".toList then
    match i.flagArgs with
    | [] => ⟨2, ExitPoint.forceNoVersion, st, calls, []⟩
    | a :: _ =>
      match Atoi a with
      | none => ⟨3, ExitPoint.forceBadVersion, st, calls, []⟩
      | some version => callAndFinish i st calls (LibCall.force version)
  else if command = "step".toList ∨ command = "steps".toList ∨ command = "s".toList then
    match i.flagArgs with
    | [] => ⟨4, ExitPoint.stepNoCount, st, calls, []⟩
    | a :: _ =>
      match Atoi a with
      | none => ⟨5, ExitPoint.stepBadCount, st, calls, []⟩
      | some steps => callAndFinish i st calls (LibCall.steps steps)
  else if command = "sync".toList then
    let mainDir := TrimPrefix migrations "file://".toList
    let maxv := maxMigrationVersion (i.walk mainDir)
    callAndFinish i st calls (LibCall.migrate maxv)
  else if command = "new".toList then
    match i.flagArgs with
    | [] => ⟨6, ExitPoint.newNoName, st, calls, []⟩
    | a :: _ => newCommand i st calls migrations a
  else if command = "check".toList ∨ command = "c".toList then
    checkCommand i st calls migrations
  else
    match ParseUint command with
    | none => ⟨10, ExitPoint.badCommand, st, calls, []⟩
    | some version => callAndFinish i st calls (LibCall.migrate (version % uintModulus))

/-- Lines 92-105: the driver and the migration handle, created when the
database handle is not `nil`; then the command switch. -/
def setupAndDispatch {σ : Type} (i : Input σ) (dbOpen : Bool)
    (command migrations : GoString) : Outcome σ :=
  if dbOpen then
    let r1 := i.lib LibCall.withInstance i.store
    match r1.2 with
    | some e => ⟨3, ExitPoint.driverFailed, r1.1, [(LibCall.withInstance, some e)], []⟩
    | none =>
      let r2 := i.lib (LibCall.newWithDatabaseInstance migrations) r1.1
      let calls := [(LibCall.withInstance, none),
        (LibCall.newWithDatabaseInstance migrations, r2.2)]
      match r2.2 with
      | some _ => ⟨4, ExitPoint.driverFailed2, r2.1, calls, []⟩
      | none => dispatch i r2.1 calls command migrations
  else dispatch i i.store [] command migrations

/-- The function `main`. -/
def main {σ : Type} (i : Input σ) : Outcome σ :=
  let command := resolveCommand i
  let migrations := resolveMigrations i
  if migrations = [] then ⟨1, ExitPoint.migrationsRequired, i.store, [], []⟩
  else
    let databaseURL := withMultiStatements (resolveDatabaseURL i)
    let err := i.sqlOpen databaseURL
    if err.isSome ∧ (command ≠ "new".toList ∧ command ≠ "check".toList
        ∧ command ≠ "c".toList) then
      ⟨2, ExitPoint.openFailed, i.store, [], []⟩
    else if i.envSkipAll = "true".toList then
      ⟨0, ExitPoint.skipAll, i.store, [], []⟩
    else setupAndDispatch i err.isNone command migrations

/-- The exit status of each place where a run ends. -/
def exitStatus : ExitPoint → Nat
  | ExitPoint.migrationsRequired => 1
  | ExitPoint.openFailed => 2
  | ExitPoint.skipAll => 0
  | ExitPoint.driverFailed => 3
  | ExitPoint.driverFailed2 => 4
  | ExitPoint.forceNoVersion => 2
  | ExitPoint.forceBadVersion => 3
  | ExitPoint.stepNoCount => 4
  | ExitPoint.stepBadCount => 5
  | ExitPoint.newNoName => 6
  | ExitPoint.writeUpFailed => 7
  | ExitPoint.writeDownFailed => 8
  | ExitPoint.created => 0
  | ExitPoint.duplicate _ _ => 9
  | ExitPoint.allUnique => 0
  | ExitPoint.badCommand => 10
  | ExitPoint.noChange => 0
  | ExitPoint.failed _ => 10
  | ExitPoint.success => 0

/-- The runs that end before the command switch is reached. -/
def ExitPoint.beforeSwitch : ExitPoint → Bool
  | ExitPoint.migrationsRequired => true
  | ExitPoint.openFailed => true
  | ExitPoint.skipAll => true
  | ExitPoint.driverFailed => true
  | ExitPoint.driverFailed2 => true
  | _ => false

/-- The library calls that are operations of the migration engine on the
store (the methods of the handle `m`). -/
def LibCall.isOperation : LibCall → Bool
  | LibCall.withInstance => false
  | LibCall.newWithDatabaseInstance _ => false
  | _ => true

/-- The migrations directory of a run: the location in effect without its
`file://` prefix. -/
def mainDirOf {σ : Type} (i : Input σ) : GoString :=
  TrimPrefix (resolveMigrations i) "file://".toList

/-- The placeholder body of the up file. -/
def updata : GoString := "-- write your UP migration here\n".toList

/-- The placeholder body of the down file. -/
def downdata : GoString := "-- write your DOWN migration here\n".toList

/-- The name of the up file `new` writes for version `v` and name `n`. -/
def upFileName (v : Nat) (n : GoString) : GoString :=
  formatUint05 v ++ "_".toList ++ n ++ ".up.sql".toList

/-- The name of the down file `new` writes for version `v` and name `n`. -/
def downFileName (v : Nat) (n : GoString) : GoString :=
  formatUint05 v ++ "_".toList ++ n ++ ".down.sql".toList

/-- The function `main` from line 61 on, for a given command in effect. -/
def mainBody {σ : Type} (i : Input σ) (command : GoString) : Outcome σ :=
  let migrations := resolveMigrations i
  if migrations = [] then ⟨1, ExitPoint.migrationsRequired, i.store, [], []⟩
  else
    let databaseURL := withMultiStatements (resolveDatabaseURL i)
    let err := i.sqlOpen databaseURL
    if err.isSome ∧ (command ≠ "new".toList ∧ command ≠ "check".toList
        ∧ command ≠ "c".toList) then
      ⟨2, ExitPoint.openFailed, i.store, [], []⟩
    else if i.envSkipAll = "true".toList then
      ⟨0, ExitPoint.skipAll, i.store, [], []⟩
    else setupAndDispatch i err.isNone command migrations

/-- The number `maxMigrationVersion` returns on the migrations directory of a
run: the target of `sync`, and the number before the one `new` uses. -/
def latestVersion {σ : Type} (i : Input σ) : Nat :=
  maxMigrationVersion (i.walk (mainDirOf i))

/-- The five outcome classes the specification names. -/
inductive OutcomeClass where
  | success
  | noChange
  | validationFailure
  | executionFailure
  | usageError
deriving DecidableEq, Repr

/-- The class of a run, from the place where it ends: success, "no change",
validation failure (a duplicate found by `check`), execution failure (the
engine returns an error other than "no change"), usage error (a missing or
unparsable argument, an unknown command).  A run that ends because the store
or the file system fails before or outside the engine has none of them. -/
def outcomeClass : ExitPoint → Option OutcomeClass
  | ExitPoint.success => some OutcomeClass.success
  | ExitPoint.created => some OutcomeClass.success
  | ExitPoint.allUnique => some OutcomeClass.success
  | ExitPoint.skipAll => some OutcomeClass.success
  | ExitPoint.noChange => some OutcomeClass.noChange
  | ExitPoint.duplicate _ _ => some OutcomeClass.validationFailure
  | ExitPoint.failed _ => some OutcomeClass.executionFailure
  | ExitPoint.migrationsRequired => some OutcomeClass.usageError
  | ExitPoint.forceNoVersion => some OutcomeClass.usageError
  | ExitPoint.forceBadVersion => some OutcomeClass.usageError
  | ExitPoint.stepNoCount => some OutcomeClass.usageError
  | ExitPoint.stepBadCount => some OutcomeClass.usageError
  | ExitPoint.newNoName => some OutcomeClass.usageError
  | ExitPoint.badCommand => some OutcomeClass.usageError
  | ExitPoint.openFailed => none
  | ExitPoint.driverFailed => none
  | ExitPoint.driverFailed2 => none
  | ExitPoint.writeUpFailed => none
  | ExitPoint.writeDownFailed => none

/-- The three groups of classes the exit status tells apart: finished
(success or "no change"), validation failure, and failure of the command
(execution failure or usage error). -/
def outcomeGroup : OutcomeClass → Nat
  | OutcomeClass.success => 0
  | OutcomeClass.noChange => 0
  | OutcomeClass.validationFailure => 1
  | OutcomeClass.executionFailure => 2
  | OutcomeClass.usageError => 2

/-- The group an exit status stands for. -/
def statusGroup (status : Nat) : Nat :=
  if status = 0 then 0 else if status = 9 then 1 else 2

/-- A run is settled when its status is the one of the place where it ended
and an operation of the engine that reported "no change" ended it there. -/
def Settled {σ : Type} (o : Outcome σ) : Prop :=
  o.status = exitStatus o.point ∧
  ∀ c, c.isOperation = true → (c, some "no change".toList) ∈ o.calls →
    o.point = ExitPoint.noChange

/-- None of the calls is an operation of the engine. -/
def NoOperation (calls : List (LibCall × Option GoString)) : Prop :=
  ∀ x ∈ calls, x.1.isOperation = false

/-- The store when the command switch is reached with an open database
handle: after `mysql.WithInstance` and `migrate.NewWithDatabaseInstance`. -/
def storeAtSwitch {σ : Type} (i : Input σ) : σ :=
  (i.lib (LibCall.newWithDatabaseInstance (resolveMigrations i))
    (i.lib LibCall.withInstance i.store).1).1

/-- The order of `filepath.Walk` between two paths below the root: element by
element, a directory before what it holds and names in lexical order. -/
def walkBefore (p q : GoString) : Prop :=
  List.Lex (List.Lex (fun a b : Char => a < b)) (splitSlash p) (splitSlash q)

instance walkBeforeDecidable : DecidableRel walkBefore :=
  fun p q => inferInstanceAs
    (Decidable (List.Lex (List.Lex (fun a b : Char => a < b)) (splitSlash p) (splitSlash q)))

/-- The list `l` is in the order in which `filepath.Walk` visits from `root`:
the root first, then the paths below it in the order of the walk. -/
def IsWalk (root : GoString) (l : List GoString) : Prop :=
  l.head? = some root ∧ l.tail.Pairwise walkBefore

instance isWalkDecidable (root : GoString) (l : List GoString) : Decidable (IsWalk root l) :=
  inferInstanceAs (Decidable (l.head? = some root ∧ l.tail.Pairwise walkBefore))

/-! ## Sample runs -/

/-- A migration engine for the sample runs.  The store is the current
version; migrating to the current version is "no change", stepping fails. -/
def sampleLib : LibCall → Nat → Nat × Option GoString
  | LibCall.migrate v, cur => if v = cur then (cur, some "no change".toList) else (v, none)
  | LibCall.force v, _ => (v.toNat, none)
  | LibCall.steps _, cur => (cur, some "file does not exist".toList)
  | _, cur => (cur, none)

/-- A store that cannot be reached: the driver cannot be created. -/
def unreachableLib : LibCall → Nat → Nat × Option GoString
  | LibCall.withInstance, cur => (cur, some "dial tcp 10.0.0.5:3306: i/o timeout".toList)
  | _, cur => (cur, none)

/-- A sample run: a command, its arguments, the store at version `cur`, and
the paths the walk of the directory `migrations` visits. -/
def sampleInput (command : GoString) (args : List GoString) (cur : Nat)
    (listing : List GoString) : Input Nat where
  flagDatabaseURL := "app:secret@tcp(db:3306)/app".toList
  flagCommand := command
  flagMigrations := "file://migrations".toList
  flagArgs := args
  envDatabaseURL := []
  envMigrationCommand := []
  envMigrationURL := []
  envSkipAll := []
  sqlOpen := fun _ => none
  lib := sampleLib
  store := cur
  walk := fun root => if root = "migrations".toList then listing else [root]
  writeFile := fun _ _ => none

/-- A sample run without a usable database URL: `sql.Open` rejects the DSN,
so only `new` and `check` get past line 78, with a `nil` handle. -/
def offlineInput (command : GoString) (args : List GoString)
    (listing : List GoString) : Input Nat where
  flagDatabaseURL := []
  flagCommand := command
  flagMigrations := "file://migrations".toList
  flagArgs := args
  envDatabaseURL := []
  envMigrationCommand := []
  envMigrationURL := []
  envSkipAll := []
  sqlOpen := fun _ => some "invalid DSN: missing the slash separating the database name".toList
  lib := sampleLib
  store := 0
  walk := fun root => if root = "migrations".toList then listing else [root]
  writeFile := fun _ _ => none

/-- A directory with the versions 1 to 3, both directions. -/
def threeVersions : List GoString :=
  ["migrations".toList,
   "migrations/00001_init.down.sql".toList, "migrations/00001_init.up.sql".toList,
   "migrations/00002_users.down.sql".toList, "migrations/00002_users.up.sql".toList,
   "migrations/00003_orders.down.sql".toList, "migrations/00003_orders.up.sql".toList]

/-- A directory in which `3_a.up.sql` and `00003_b.up.sql` both carry
version 3, in the order of the walk. -/
def paddedTwice : List GoString :=
  ["migrations".toList, "migrations/00003_b.up.sql".toList, "migrations/3_a.up.sql".toList]

/-- The directory of the scenario: `00003_a.up.sql` and `00003_b.up.sql`. -/
def sameVersionTwice : List GoString :=
  ["migrations".toList, "migrations/00003_a.up.sql".toList, "migrations/00003_b.up.sql".toList]

/-- A directory without any migration file, with two notes. -/
def notesOnly : List GoString :=
  ["migrations".toList, "migrations/notes_v1.up.sql".toList, "migrations/notes_v2.up.sql".toList]

/-- A directory with one migration and the same helper script in two
subdirectories. -/
def helperInSubdirs : List GoString :=
  ["migrations".toList, "migrations/00001_init.up.sql".toList,
   "migrations/mysql".toList, "migrations/mysql/helper.down.sql".toList,
   "migrations/tidb".toList, "migrations/tidb/helper.down.sql".toList]

/-- A directory whose only SQL file is not a migration. -/
def seedOnly : List GoString :=
  ["migrations".toList, "migrations/00009_seed.sql".toList]

/-- A directory with two versions present twice each. -/
def twoDuplicates : List GoString :=
  ["migrations".toList,
   "migrations/00001_a.up.sql".toList, "migrations/00001_b.up.sql".toList,
   "migrations/00002_a.up.sql".toList, "migrations/00002_b.up.sql".toList]

/-- A directory whose highest version is the largest `uint`. -/
def lastVersion : List GoString :=
  ["migrations".toList, "migrations/18446744073709551615_last.down.sql".toList,
   "migrations/18446744073709551615_last.up.sql".toList]

/-- A directory whose highest version is 7. -/
def upToSeven : List GoString :=
  ["migrations".toList, "migrations/00006_roles.down.sql".toList,
   "migrations/00006_roles.up.sql".toList, "migrations/00007_teams.down.sql".toList,
   "migrations/00007_teams.up.sql".toList]

/-- The directory `upToSeven` after `new add_users`, in the order of the walk. -/
def upToEight : List GoString :=
  ["migrations".toList, "migrations/00006_roles.down.sql".toList,
   "migrations/00006_roles.up.sql".toList, "migrations/00007_teams.down.sql".toList,
   "migrations/00007_teams.up.sql".toList, "migrations/00008_add_users.down.sql".toList,
   "migrations/00008_add_users.up.sql".toList]

/-- The file name of a path. -/
def fileNameOf (path : GoString) : GoString :=
  (Split path).2

/-! ## The words of the specification -/

/-- Direction of a migration file. -/
inductive Direction where
  | up
  | down
deriving DecidableEq, Repr

/-- Value of a run of decimal digits, of any width. -/
def decimalValue (digits : GoString) : Nat :=
  digits.foldl (fun a c => a * 10 + (c.toNat - '0'.toNat)) 0

/-- The reading of a file name the specification gives: a name of the form
`<digits>_<name>.<up|down>.sql` has the version written by its leading digit
run and the direction named by its suffix; any other name has none. -/
def parseMigrationName (fname : GoString) : Option (Nat × Direction) :=
  let digits := fname.takeWhile Char.isDigit
  let rest := fname.drop digits.length
  if digits ≠ [] ∧ HasPrefix rest ['_'] then
    if HasSuffix (rest.drop 1) ".up.sql".toList then some (decimalValue digits, Direction.up)
    else if HasSuffix (rest.drop 1) ".down.sql".toList then
      some (decimalValue digits, Direction.down)
    else none
  else none

/-- The reference `maxVersion` of the specification on a directory listing:
the highest version among the entries whose names match, `0` without one. -/
def refMaxVersion (walk : List GoString) : Nat :=
  (walk.filterMap (fun path => parseMigrationName (Split path).2)).foldl
    (fun a x => max a x.1) 0

/-! ## Facts about the library functions -/

theorem parseUintLoop_lt (cs : GoString) :
    ∀ n r, parseUintLoop cs n = some r → n < uintModulus → r < uintModulus := by
  induction cs with
  | nil =>
    intro n r h hn
    simp only [parseUintLoop, Option.some.injEq] at h
    omega
  | cons c cs ih =>
    intro n r h _
    unfold parseUintLoop at h
    dsimp only at h
    split_ifs at h
    exact ih _ r h (Nat.mod_lt _ (by unfold uintModulus uintBits; norm_num))

theorem ParseUint_lt (s : GoString) (r : Nat) (h : ParseUint s = some r) :
    r < uintModulus := by
  unfold ParseUint at h
  split_ifs at h
  exact parseUintLoop_lt s 0 r h (by unfold uintModulus uintBits; norm_num)

theorem uintModulus_eq : uintModulus = 18446744073709551616 := by
  unfold uintModulus uintBits; norm_num

theorem foldl_digits_ge (cs : GoString) :
    ∀ n, n ≤ cs.foldl (fun a c => a * 10 + (c.toNat - '0'.toNat)) n := by
  induction cs with
  | nil => intro n; simp
  | cons c cs ih =>
    intro n
    simp only [List.foldl_cons]
    exact Nat.le_trans (by omega) (ih _)

/-- On a run of digits whose value fits the word, the loop of `ParseUint`
returns that value. -/
theorem parseUintLoop_digits (cs : GoString) :
    ∀ n, (∀ c ∈ cs, '0' ≤ c ∧ c ≤ '9') →
      cs.foldl (fun a c => a * 10 + (c.toNat - '0'.toNat)) n < uintModulus →
      parseUintLoop cs n = some (cs.foldl (fun a c => a * 10 + (c.toNat - '0'.toNat)) n) := by
  induction cs with
  | nil => intro n _ _; simp [parseUintLoop]
  | cons c cs ih =>
    intro n hdig hlt
    simp only [List.foldl_cons] at hlt ⊢
    have hc := hdig c (List.mem_cons_self _ _)
    have hge := foldl_digits_ge cs (n * 10 + (c.toNat - '0'.toNat))
    have hrest := ih (n * 10 + (c.toNat - '0'.toNat))
      (fun x hx => hdig x (List.mem_cons_of_mem _ hx)) hlt
    rw [uintModulus_eq] at hlt
    have hsmall : n * 10 + (c.toNat - '0'.toNat) < 18446744073709551616 := by omega
    unfold parseUintLoop
    rw [if_pos hc]
    dsimp only
    rw [uintModulus_eq]
    have h10 : n * 10 % 18446744073709551616 = n * 10 := Nat.mod_eq_of_lt (by omega)
    rw [h10, Nat.mod_eq_of_lt hsmall]
    rw [if_neg (by omega), if_neg (by omega)]
    exact hrest

theorem digitChar_spec : ∀ d, d < 10 →
    ('0' ≤ digitChar d ∧ digitChar d ≤ '9') ∧ (digitChar d).toNat - '0'.toNat = d := by
  decide

theorem digit_ne_underscore (c : Char) (h : '0' ≤ c ∧ c ≤ '9') : c ≠ '_' := by
  rintro rfl
  exact absurd h.2 (by decide)

/-- The digits `formatLoop` writes: a non-empty run of digits in front of
`acc`, of value `u`. -/
theorem formatLoop_spec (fuel : Nat) :
    ∀ u acc, u < 10 ^ (fuel + 1) →
      ∃ ds, formatLoop fuel u acc = ds ++ acc ∧ ds ≠ [] ∧
        (∀ c ∈ ds, '0' ≤ c ∧ c ≤ '9') ∧
        ∀ n, ds.foldl (fun a c => a * 10 + (c.toNat - '0'.toNat)) n
          = n * 10 ^ ds.length + u := by
  induction fuel with
  | zero =>
    intro u acc hu
    have hu10 : u < 10 := by simpa using hu
    refine ⟨[digitChar u], ?_, by simp, ?_, ?_⟩
    · simp [formatLoop, Nat.mod_eq_of_lt hu10]
    · intro c hc
      rw [List.mem_singleton.mp hc]
      exact (digitChar_spec u hu10).1
    · intro n
      simp only [List.foldl_cons, List.foldl_nil, List.length_singleton, pow_one,
        (digitChar_spec u hu10).2]
  | succ fuel ih =>
    intro u acc hu
    unfold formatLoop
    by_cases h10 : u ≥ 10
    · rw [if_pos h10]
      have hdiv : u / 10 < 10 ^ (fuel + 1) := by
        rw [Nat.div_lt_iff_lt_mul (by norm_num)]
        calc u < 10 ^ (fuel + 1 + 1) := hu
          _ = 10 ^ (fuel + 1) * 10 := by ring
      obtain ⟨ds, heq, _, hdig, hval⟩ := ih (u / 10) (digitChar (u % 10) :: acc) hdiv
      have hm : u % 10 < 10 := Nat.mod_lt _ (by norm_num)
      refine ⟨ds ++ [digitChar (u % 10)], ?_, by simp, ?_, ?_⟩
      · rw [heq]; simp
      · intro c hc
        rcases List.mem_append.mp hc with h | h
        · exact hdig c h
        · rw [List.mem_singleton.mp h]
          exact (digitChar_spec _ hm).1
      · intro n
        rw [List.foldl_append, hval]
        simp only [List.foldl_cons, List.foldl_nil, (digitChar_spec _ hm).2,
          List.length_append, List.length_singleton]
        have := Nat.div_add_mod u 10
        rw [pow_succ]
        nlinarith [Nat.div_add_mod u 10]
    · rw [if_neg h10]
      have hu10 : u < 10 := by omega
      refine ⟨[digitChar u], by simp, by simp, ?_, ?_⟩
      · intro c hc
        rw [List.mem_singleton.mp hc]
        exact (digitChar_spec u hu10).1
      · intro n
        simp only [List.foldl_cons, List.foldl_nil, List.length_singleton, pow_one,
          (digitChar_spec u hu10).2]

theorem foldl_digits_zeros (k : Nat) :
    (List.replicate k '0').foldl (fun a c => a * 10 + (c.toNat - '0'.toNat)) 0 = 0 := by
  induction k with
  | zero => rfl
  | succ k ih => simpa [List.replicate_succ] using ih

/-- The text `%05d` writes is a non-empty run of digits that `ParseUint` reads
back as the number written. -/
theorem formatUint05_spec (v : Nat) (hv : v < uintModulus) :
    formatUint05 v ≠ [] ∧ (∀ c ∈ formatUint05 v, '0' ≤ c ∧ c ≤ '9') ∧
      ParseUint (formatUint05 v) = some v := by
  rw [uintModulus_eq] at hv
  obtain ⟨ds, heq, hne, hdig, hval⟩ := formatLoop_spec 20 v [] (by omega)
  rw [List.append_nil] at heq
  have hform : formatUint v = ds := heq
  have hall : ∀ c ∈ formatUint05 v, '0' ≤ c ∧ c ≤ '9' := by
    intro c hc
    unfold formatUint05 at hc
    rw [hform] at hc
    rcases List.mem_append.mp hc with h | h
    · rw [(List.mem_replicate.mp h).2]; decide
    · exact hdig c h
  have hnonempty : formatUint05 v ≠ [] := by
    unfold formatUint05
    rw [hform]
    simp [hne]
  have hvalue : (formatUint05 v).foldl (fun a c => a * 10 + (c.toNat - '0'.toNat)) 0 = v := by
    unfold formatUint05
    rw [hform, List.foldl_append, foldl_digits_zeros, hval]
    simp
  refine ⟨hnonempty, hall, ?_⟩
  unfold ParseUint
  rw [if_neg hnonempty]
  have := parseUintLoop_digits (formatUint05 v) 0 hall (by rw [hvalue, uintModulus_eq]; exact hv)
  rw [this, hvalue]

/-- The text `%d` writes is a non-empty run of digits that `ParseUint` reads
back as the number written. -/
theorem formatUint_spec (v : Nat) (hv : v < uintModulus) :
    formatUint v ≠ [] ∧ (∀ c ∈ formatUint v, '0' ≤ c ∧ c ≤ '9') ∧
      ParseUint (formatUint v) = some v := by
  rw [uintModulus_eq] at hv
  obtain ⟨ds, heq, hne, hdig, hval⟩ := formatLoop_spec 20 v [] (by omega)
  rw [List.append_nil] at heq
  have hform : formatUint v = ds := heq
  rw [hform]
  refine ⟨hne, hdig, ?_⟩
  unfold ParseUint
  rw [if_neg hne]
  have hvalue : ds.foldl (fun a c => a * 10 + (c.toNat - '0'.toNat)) 0 = v := by
    rw [hval]; simp
  have := parseUintLoop_digits ds 0 hdig (by rw [hvalue, uintModulus_eq]; exact hv)
  rw [this, hvalue]

theorem takeWhile_before (x : Char) (ds rest : GoString) (h : ∀ c ∈ ds, c ≠ x) :
    (ds ++ x :: rest).takeWhile (fun c => c != x) = ds := by
  induction ds with
  | nil => simp [List.takeWhile]
  | cons c ds ih =>
    have hc : c ≠ x := h c (List.mem_cons_self _ _)
    simp only [List.cons_append, List.takeWhile_cons, bne_iff_ne, ne_eq, hc, not_false_eq_true,
      if_true, List.cons.injEq, true_and]
    exact ih (fun y hy => h y (List.mem_cons_of_mem _ hy))

theorem takeWhile_all (x : Char) (ds : GoString) (h : ∀ c ∈ ds, c ≠ x) :
    ds.takeWhile (fun c => c != x) = ds := by
  induction ds with
  | nil => rfl
  | cons c ds ih =>
    have hc : c ≠ x := h c (List.mem_cons_self _ _)
    simp only [List.takeWhile_cons, bne_iff_ne, ne_eq, hc, not_false_eq_true,
      if_true, List.cons.injEq, true_and]
    exact ih (fun y hy => h y (List.mem_cons_of_mem _ hy))

/-- The first piece of `SplitN(s, "_", 2)` when `s` is a text without
underscore followed by an underscore. -/
theorem SplitN2_head (ds rest : GoString) (h : ∀ c ∈ ds, c ≠ '_') :
    (SplitN2 (ds ++ '_' :: rest)).headD [] = ds := by
  unfold SplitN2
  simp only [takeWhile_before '_' ds rest h]
  rw [if_neg (by simp)]
  rfl

/-! ## Facts about `Split`, `Clean` and `Join` -/

/-- The file part of a path whose last element `f` follows a separator or
starts the path. -/
theorem Split_file (pre f : GoString) (hf : ∀ c ∈ f, c ≠ '/')
    (hpre : pre = [] ∨ ∃ q, pre = q ++ ['/']) : (Split (pre ++ f)).2 = f := by
  unfold Split
  have hrev : ∀ c ∈ f.reverse, c ≠ '/' := fun c hc => hf c (List.mem_reverse.mp hc)
  rcases hpre with rfl | ⟨q, rfl⟩
  · simp only [List.nil_append]
    rw [takeWhile_all '/' f.reverse hrev, List.reverse_reverse]
  · have : (q ++ ['/'] ++ f).reverse = f.reverse ++ '/' :: q.reverse := by simp
    rw [this, takeWhile_before '/' f.reverse q.reverse hrev, List.reverse_reverse]

theorem splitSlash_ne_nil (p : GoString) : splitSlash p ≠ [] := by
  cases p with
  | nil => simp [splitSlash]
  | cons c cs =>
    unfold splitSlash
    split_ifs
    · simp
    · split <;> simp

theorem splitSlash_append (a b : GoString) :
    splitSlash (a ++ '/' :: b) = splitSlash a ++ splitSlash b := by
  induction a with
  | nil => simp [splitSlash]
  | cons c a ih =>
    by_cases hc : c = '/'
    · simp [splitSlash, hc, ih]
    · have h1 : splitSlash (c :: a ++ '/' :: b)
          = match splitSlash (a ++ '/' :: b) with
            | [] => [[c]]
            | h :: t => (c :: h) :: t := by
        rw [List.cons_append]
        conv_lhs => unfold splitSlash
        rw [if_neg hc]
      have h2 : splitSlash (c :: a)
          = match splitSlash a with
            | [] => [[c]]
            | h :: t => (c :: h) :: t := by
        conv_lhs => unfold splitSlash
        rw [if_neg hc]
      rw [h1, h2, ih]
      cases hs : splitSlash a with
      | nil => exact absurd hs (splitSlash_ne_nil a)
      | cons h t => rfl

theorem splitSlash_single (f : GoString) (hf : ∀ c ∈ f, c ≠ '/') : splitSlash f = [f] := by
  induction f with
  | nil => rfl
  | cons c f ih =>
    have hc : c ≠ '/' := hf c (List.mem_cons_self _ _)
    unfold splitSlash
    rw [if_neg hc, ih (fun y hy => hf y (List.mem_cons_of_mem _ hy))]

theorem joinSlash_last (f : GoString) (xs : List GoString) :
    ∃ pre, joinSlash (xs ++ [f]) = pre ++ f ∧ (pre = [] ∨ ∃ q, pre = q ++ ['/']) := by
  induction xs with
  | nil => exact ⟨[], by simp [joinSlash], Or.inl rfl⟩
  | cons x xs ih =>
    obtain ⟨pre, heq, hpre⟩ := ih
    have hstep : joinSlash (x :: xs ++ [f]) = x ++ '/' :: joinSlash (xs ++ [f]) := by
      cases xs with
      | nil => simp [joinSlash]
      | cons y ys => simp [joinSlash]
    refine ⟨x ++ '/' :: pre, by rw [hstep, heq]; simp, Or.inr ?_⟩
    rcases hpre with rfl | ⟨q, rfl⟩
    · exact ⟨x, rfl⟩
    · exact ⟨x ++ '/' :: q, by simp⟩

/-- The result of `Clean` ends with the last element of the path when that
element is a name (not empty, not `.`, not `..`). -/
theorem Clean_last (p f : GoString) (xs : List GoString)
    (hsplit : splitSlash p = xs ++ [f])
    (h0 : f ≠ []) (h1 : f ≠ ".".toList) (h2 : f ≠ "..".toList) :
    ∃ pre, Clean p = pre ++ f ∧ (pre = [] ∨ ∃ q, pre = q ++ ['/']) := by
  unfold Clean
  simp only [hsplit, List.filter_append, List.foldl_append]
  have hkeep : List.filter (fun e => decide (e ≠ [] ∧ e ≠ ".".toList)) [f] = [f] := by
    simp only [List.filter_cons, List.filter_nil]
    rw [if_pos (by simpa using ⟨h0, h1⟩)]
  rw [hkeep]
  simp only [List.foldl_cons, List.foldl_nil]
  generalize List.foldl (cleanPush (HasPrefix p ['/']))
    [] (List.filter (fun e => decide (e ≠ [] ∧ e ≠ ".".toList)) xs) = st
  have hpush : cleanPush (HasPrefix p ['/']) st f = f :: st := by
    unfold cleanPush
    rw [if_neg h2]
  rw [hpush, List.reverse_cons]
  obtain ⟨pre, heq, hpre⟩ := joinSlash_last f st.reverse
  rw [heq]
  by_cases hr : HasPrefix p ['/'] = true
  · simp only [hr, if_true]
    rw [if_neg (by simp)]
    refine ⟨'/' :: pre, by simp, Or.inr ?_⟩
    rcases hpre with rfl | ⟨q, rfl⟩
    · exact ⟨[], rfl⟩
    · exact ⟨'/' :: q, by simp⟩
  · simp only [hr, if_false, List.nil_append, Bool.false_eq_true]
    rw [if_neg (by simp [h0])]
    exact ⟨pre, rfl, hpre⟩

/-- A file name joined to a directory stays the last element of the path. -/
theorem Join_last (dir f : GoString) (hf : ∀ c ∈ f, c ≠ '/')
    (h0 : f ≠ []) (h1 : f ≠ ".".toList) (h2 : f ≠ "..".toList) :
    ∃ pre, Join dir f = pre ++ f ∧ (pre = [] ∨ ∃ q, pre = q ++ ['/']) := by
  unfold Join
  by_cases hd : dir ≠ []
  · rw [if_pos hd]
    exact Clean_last _ f (splitSlash dir)
      (by rw [splitSlash_append, splitSlash_single f hf]) h0 h1 h2
  · rw [if_neg hd, if_pos h0]
    exact Clean_last f f [] (by rw [splitSlash_single f hf]; rfl) h0 h1 h2

/-! ## Facts about `maxMigrationVersion` -/

theorem maxVisit_ge (a : Nat) (p : GoString) : a ≤ maxVisit a p := by
  unfold maxVisit
  split
  · split_ifs <;> omega
  · exact Nat.le_refl a

theorem foldl_maxVisit_ge (l : List GoString) :
    ∀ a, a ≤ l.foldl maxVisit a := by
  induction l with
  | nil => intro a; simp
  | cons p l ih =>
    intro a
    simp only [List.foldl_cons]
    exact Nat.le_trans (maxVisit_ge a p) (ih _)

theorem foldl_maxVisit_upper (l : List GoString) :
    ∀ a p v, p ∈ l → sqlVersion p = some v → v ≤ l.foldl maxVisit a := by
  induction l with
  | nil => intro a p v hp; simp at hp
  | cons q l ih =>
    intro a p v hp hv
    simp only [List.foldl_cons]
    rcases List.mem_cons.mp hp with rfl | hp
    · refine Nat.le_trans ?_ (foldl_maxVisit_ge l _)
      have hlt : v < uintModulus := by
        unfold sqlVersion at hv
        split_ifs at hv
        exact ParseUint_lt _ _ hv
      unfold maxVisit
      rw [hv]
      simp only [Nat.mod_eq_of_lt hlt]
      split_ifs <;> omega
    · exact ih _ p v hp hv

theorem foldl_maxVisit_attained (l : List GoString) :
    ∀ a, l.foldl maxVisit a = a ∨ ∃ p ∈ l, sqlVersion p = some (l.foldl maxVisit a) := by
  induction l with
  | nil => intro a; simp
  | cons q l ih =>
    intro a
    simp only [List.foldl_cons]
    rcases ih (maxVisit a q) with h | ⟨p, hp, hv⟩
    · rw [h]
      unfold maxVisit
      cases hq : sqlVersion q with
      | none => left; rfl
      | some v =>
        have hlt : v < uintModulus := by
          unfold sqlVersion at hq
          split_ifs at hq
          exact ParseUint_lt _ _ hq
        simp only [Nat.mod_eq_of_lt hlt]
        split_ifs
        · right; exact ⟨q, List.mem_cons_self _ _, hq⟩
        · left; rfl
    · right; exact ⟨p, List.mem_cons_of_mem _ hp, hv⟩

theorem maxVisit_comm (a : Nat) (p q : GoString) :
    maxVisit (maxVisit a p) q = maxVisit (maxVisit a q) p := by
  unfold maxVisit
  cases sqlVersion p with
  | none =>
    cases sqlVersion q with
    | none => rfl
    | some w => rfl
  | some v =>
    cases sqlVersion q with
    | none => rfl
    | some w =>
      dsimp only
      split_ifs <;> omega

theorem maxMigrationVersion_lt (l : List GoString) :
    maxMigrationVersion l < uintModulus := by
  unfold maxMigrationVersion
  rcases foldl_maxVisit_attained l 0 with h | ⟨p, _, hv⟩
  · rw [h]; unfold uintModulus uintBits; norm_num
  · unfold sqlVersion at hv
    split_ifs at hv
    exact ParseUint_lt _ _ hv

/-! ## Facts about the walk of `check` -/

theorem checkVisit_ok (st : CheckState) (p : GoString)
    (hu : ∀ k, upKey p = some k → k ∉ st.upfiles)
    (hd : ∀ k, downKey p = some k → k ∉ st.downfiles) :
    checkVisit st p = Except.ok
      ⟨(upKey p).toList ++ st.upfiles, (downKey p).toList ++ st.downfiles⟩ := by
  unfold checkVisit
  unfold upKey at hu
  unfold downKey at hd
  unfold upKey downKey
  by_cases h1 : HasSuffix p ".up.sql".toList = true <;>
    by_cases h2 : HasSuffix p ".down.sql".toList = true <;>
    simp only [h1, h2, if_true, if_false, Bool.false_eq_true] at hu hd ⊢
  · have a := hu _ rfl
    have b := hd _ rfl
    simp [a, b]
  · have a := hu _ rfl
    simp [a]
  · have b := hd _ rfl
    simp [b]
  · simp

theorem checkVisit_error_up (st : CheckState) (p k : GoString)
    (hk : upKey p = some k) (hmem : k ∈ st.upfiles) :
    checkVisit st p = Except.error (k, p) := by
  unfold upKey at hk
  unfold checkVisit
  split_ifs at hk with h1
  cases hk
  simp only [h1, hmem, if_true]

theorem checkVisit_error_down (st : CheckState) (p k : GoString)
    (hu : ∀ k, upKey p = some k → k ∉ st.upfiles)
    (hk : downKey p = some k) (hmem : k ∈ st.downfiles) :
    checkVisit st p = Except.error (k, p) := by
  unfold downKey at hk
  unfold upKey at hu
  unfold checkVisit
  split_ifs at hk with h2
  cases hk
  by_cases h1 : HasSuffix p ".up.sql".toList = true
  · simp only [h1, if_true] at hu
    have a := hu _ rfl
    simp only [h1, h2, a, hmem, if_true, if_false]
  · simp only [h1, h2, hmem, if_true, if_false, Bool.false_eq_true]

theorem checkVisit_ok_inv (st st1 : CheckState) (p : GoString)
    (h : checkVisit st p = Except.ok st1) :
    (∀ k, upKey p = some k → k ∉ st.upfiles) ∧
    (∀ k, downKey p = some k → k ∉ st.downfiles) := by
  have hu : ∀ k, upKey p = some k → k ∉ st.upfiles := by
    intro k hk hmem
    rw [checkVisit_error_up st p k hk hmem] at h
    cases h
  refine ⟨hu, ?_⟩
  intro k hk hmem
  rw [checkVisit_error_down st p k hu hk hmem] at h
  cases h

theorem keysFresh_cons (key : GoString → Option GoString) (p : GoString)
    (l seen : List GoString) :
    KeysFresh key (p :: l) seen ↔
      (∀ k, key p = some k → k ∉ seen) ∧ KeysFresh key l ((key p).toList ++ seen) := by
  unfold KeysFresh
  cases hk : key p with
  | none => simp [List.filterMap_cons, hk]
  | some k =>
    rw [List.filterMap_cons_some hk]
    simp only [Option.toList, List.singleton_append, Option.some.injEq, forall_eq']
    constructor
    · rintro ⟨hnd, hU⟩
      obtain ⟨hkF, hF⟩ := List.nodup_cons.mp hnd
      refine ⟨hU k (List.mem_cons_self _ _), hF, fun x hx hmem => ?_⟩
      rcases List.mem_cons.mp hmem with rfl | h
      · exact hkF hx
      · exact hU x (List.mem_cons_of_mem _ hx) h
    · rintro ⟨hkU, hF, hdis⟩
      refine ⟨List.nodup_cons.mpr ⟨fun hmem => hdis k hmem (List.mem_cons_self _ _), hF⟩,
        fun x hx => ?_⟩
      rcases List.mem_cons.mp hx with rfl | h
      · exact hkU
      · exact fun hm => hdis x h (List.mem_cons_of_mem _ hm)

theorem noClash_cons (p : GoString) (l : List GoString) (st : CheckState) :
    NoClash (p :: l) st ↔
      ((∀ k, upKey p = some k → k ∉ st.upfiles) ∧
       (∀ k, downKey p = some k → k ∉ st.downfiles)) ∧
      NoClash l ⟨(upKey p).toList ++ st.upfiles, (downKey p).toList ++ st.downfiles⟩ := by
  unfold NoClash
  rw [keysFresh_cons, keysFresh_cons]
  tauto

theorem checkWalkFrom_ok_iff (l : List GoString) :
    ∀ st, (checkWalkFrom l st).toBool = true ↔ NoClash l st := by
  induction l with
  | nil => intro st; simp [checkWalkFrom, NoClash, KeysFresh, Except.toBool]
  | cons p l ih =>
    intro st
    rw [noClash_cons]
    constructor
    · intro h
      unfold checkWalkFrom at h
      cases hv : checkVisit st p with
      | error e => rw [hv] at h; simp [Except.toBool] at h
      | ok st1 =>
        rw [hv] at h
        have hinv := checkVisit_ok_inv st st1 p hv
        rw [checkVisit_ok st p hinv.1 hinv.2] at hv
        cases hv
        exact ⟨hinv, (ih _).mp h⟩
    · rintro ⟨⟨hu, hd⟩, hrest⟩
      unfold checkWalkFrom
      rw [checkVisit_ok st p hu hd]
      exact (ih _).mpr hrest

theorem checkWalk_ok_iff (l : List GoString) :
    (checkWalk l).toBool = true ↔
      (l.filterMap upKey).Nodup ∧ (l.filterMap downKey).Nodup := by
  unfold checkWalk
  rw [checkWalkFrom_ok_iff]
  simp [NoClash, KeysFresh]

theorem checkVisit_error_shape (st : CheckState) (p : GoString) (e : GoString × GoString)
    (h : checkVisit st p = Except.error e) : e = (numOf p, p) := by
  unfold checkVisit at h
  dsimp only at h
  by_cases h1 : HasSuffix p ".up.sql".toList = true
  · by_cases h2 : numOf p ∈ st.upfiles
    · simp only [h1, h2, if_true] at h
      cases h
      rfl
    · simp only [h1, h2, if_true, if_false] at h
      split_ifs at h
      cases h
      rfl
  · simp only [h1, if_false, Bool.false_eq_true] at h
    split_ifs at h
    cases h
    rfl

/-- The failure of the walk of `check` names a visited path and its key. -/
theorem checkWalkFrom_error (l : List GoString) :
    ∀ st e, checkWalkFrom l st = Except.error e → e.2 ∈ l ∧ e.1 = numOf e.2 := by
  induction l with
  | nil => intro st e h; simp [checkWalkFrom] at h
  | cons p l ih =>
    intro st e h
    unfold checkWalkFrom at h
    cases hv : checkVisit st p with
    | error e' =>
      rw [hv] at h
      have he : e' = e := by simpa using h
      rw [← he, checkVisit_error_shape st p e' hv]
      exact ⟨List.mem_cons_self _ _, rfl⟩
    | ok st1 =>
      rw [hv] at h
      obtain ⟨hmem, hnum⟩ := ih st1 e h
      exact ⟨List.mem_cons_of_mem _ hmem, hnum⟩

/-- Two different entries with the same key leave the list of keys with a
repetition. -/
theorem not_nodup_of_same_key (key : GoString → Option GoString) (l : List GoString)
    (p q k : GoString) (hp : p ∈ l) (hq : q ∈ l) (hpq : p ≠ q)
    (hkp : key p = some k) (hkq : key q = some k) : ¬(l.filterMap key).Nodup := by
  induction l with
  | nil => simp at hp
  | cons x l ih =>
    intro hnd
    rcases List.mem_cons.mp hp with rfl | hp'
    · rcases List.mem_cons.mp hq with rfl | hq'
      · exact hpq rfl
      · rw [List.filterMap_cons_some hkp] at hnd
        exact (List.nodup_cons.mp hnd).1 (List.mem_filterMap.mpr ⟨q, hq', hkq⟩)
    · rcases List.mem_cons.mp hq with rfl | hq'
      · rw [List.filterMap_cons_some hkq] at hnd
        exact (List.nodup_cons.mp hnd).1 (List.mem_filterMap.mpr ⟨p, hp', hkp⟩)
      · cases hx : key x with
        | none =>
          rw [List.filterMap_cons_none hx] at hnd
          exact ih hp' hq' hnd
        | some y =>
          rw [List.filterMap_cons_some hx] at hnd
          exact ih hp' hq' (List.nodup_cons.mp hnd).2

/-! ## Facts about the command switch -/

theorem finish_calls {σ : Type} (st : σ) (calls : List (LibCall × Option GoString))
    (err : Option GoString) : (finish st calls err).calls = calls := by
  unfold finish
  split
  · split_ifs <;> rfl
  · rfl

theorem finish_status {σ : Type} (st : σ) (calls : List (LibCall × Option GoString))
    (err : Option GoString) :
    (finish st calls err).status = exitStatus (finish st calls err).point := by
  unfold finish
  split
  · split_ifs <;> rfl
  · rfl

theorem finish_noChange {σ : Type} (st : σ) (calls : List (LibCall × Option GoString)) :
    (finish st calls (some "no change".toList)).point = ExitPoint.noChange := by
  unfold finish
  simp

theorem callAndFinish_settled {σ : Type} (i : Input σ) (st : σ)
    (calls : List (LibCall × Option GoString)) (c : LibCall) (h : NoOperation calls) :
    Settled (callAndFinish i st calls c) := by
  unfold callAndFinish
  refine ⟨finish_status _ _ _, ?_⟩
  intro c' hop hmem
  rw [finish_calls] at hmem
  rcases List.mem_append.mp hmem with hin | hin
  · have := h _ hin
    simp only [hop] at this
    cases this
  · have heq := List.mem_singleton.mp hin
    have herr : (i.lib c st).2 = some "no change".toList := (Prod.mk.inj heq).2.symm
    dsimp only
    rw [herr]
    exact finish_noChange _ _

theorem settled_of_calls {σ : Type} (o : Outcome σ) (hs : o.status = exitStatus o.point)
    (h : NoOperation o.calls) : Settled o := by
  refine ⟨hs, ?_⟩
  intro c hop hmem
  have := h _ hmem
  simp only [hop] at this
  cases this

theorem newCommand_settled {σ : Type} (i : Input σ) (st : σ)
    (calls : List (LibCall × Option GoString)) (m name : GoString) (h : NoOperation calls) :
    Settled (newCommand i st calls m name) := by
  unfold newCommand
  dsimp only
  split
  · exact settled_of_calls _ rfl h
  · split
    · exact settled_of_calls _ rfl h
    · exact settled_of_calls _ rfl h

theorem checkCommand_settled {σ : Type} (i : Input σ) (st : σ)
    (calls : List (LibCall × Option GoString)) (m : GoString) (h : NoOperation calls) :
    Settled (checkCommand i st calls m) := by
  unfold checkCommand
  dsimp only
  split
  · exact settled_of_calls _ rfl h
  · exact settled_of_calls _ rfl h

theorem dispatch_settled {σ : Type} (i : Input σ) (st : σ)
    (calls : List (LibCall × Option GoString)) (command m : GoString)
    (h : NoOperation calls) : Settled (dispatch i st calls command m) := by
  unfold dispatch
  split_ifs
  · exact callAndFinish_settled i st calls _ h
  · exact callAndFinish_settled i st calls _ h
  · split
    · exact settled_of_calls _ rfl h
    · split
      · exact settled_of_calls _ rfl h
      · exact callAndFinish_settled i st calls _ h
  · split
    · exact settled_of_calls _ rfl h
    · split
      · exact settled_of_calls _ rfl h
      · exact callAndFinish_settled i st calls _ h
  · exact callAndFinish_settled i st calls _ h
  · split
    · exact settled_of_calls _ rfl h
    · exact newCommand_settled i st calls m _ h
  · exact checkCommand_settled i st calls m h
  · split
    · exact settled_of_calls _ rfl h
    · exact callAndFinish_settled i st calls _ h

theorem setupAndDispatch_settled {σ : Type} (i : Input σ) (dbOpen : Bool)
    (command m : GoString) : Settled (setupAndDispatch i dbOpen command m) := by
  unfold setupAndDispatch
  split_ifs
  · dsimp only
    split
    · refine settled_of_calls _ rfl ?_
      intro x hx
      rw [List.mem_singleton.mp hx]
      rfl
    · split
      · refine settled_of_calls _ rfl ?_
        intro x hx
        simp only [List.mem_cons, List.mem_singleton, List.not_mem_nil, or_false] at hx
        rcases hx with rfl | rfl <;> rfl
      · refine dispatch_settled i _ _ command m ?_
        intro x hx
        simp only [List.mem_cons, List.mem_singleton, List.not_mem_nil, or_false] at hx
        rcases hx with rfl | rfl <;> rfl
  · exact dispatch_settled i _ _ command m (fun x hx => by simp at hx)

theorem main_settled {σ : Type} (i : Input σ) : Settled (main i) := by
  unfold main
  dsimp only
  split_ifs
  · exact settled_of_calls _ rfl (fun x hx => by simp at hx)
  · exact settled_of_calls _ rfl (fun x hx => by simp at hx)
  · exact settled_of_calls _ rfl (fun x hx => by simp at hx)
  · exact setupAndDispatch_settled i _ _ _

theorem main_eq_mainBody {σ : Type} (i : Input σ) :
    main i = mainBody i (resolveCommand i) := rfl

theorem digits_ne_of_letter (s lit : GoString) (hs : ∀ c ∈ s, '0' ≤ c ∧ c ≤ '9')
    (hlit : ∃ c ∈ lit, ¬('0' ≤ c ∧ c ≤ '9')) : s ≠ lit := by
  rintro rfl
  obtain ⟨c, hc, hn⟩ := hlit
  exact hn (hs c hc)

theorem dispatch_sync {σ : Type} (i : Input σ) (st : σ)
    (calls : List (LibCall × Option GoString)) (m : GoString) :
    dispatch i st calls "sync".toList m
      = callAndFinish i st calls
          (LibCall.migrate (maxMigrationVersion (i.walk (TrimPrefix m "file://".toList)))) := by
  unfold dispatch
  rw [if_neg (by decide), if_neg (by decide), if_neg (by decide), if_neg (by decide),
    if_pos (by decide)]

theorem dispatch_new {σ : Type} (i : Input σ) (st : σ)
    (calls : List (LibCall × Option GoString)) (m name : GoString) (rest : List GoString)
    (hargs : i.flagArgs = name :: rest) :
    dispatch i st calls "new".toList m = newCommand i st calls m name := by
  unfold dispatch
  rw [if_neg (by decide), if_neg (by decide), if_neg (by decide), if_neg (by decide),
    if_neg (by decide), if_pos (by decide), hargs]

/-- The switch on a command that is the decimal text of a number: it is the
migration to that number. -/
theorem dispatch_decimal {σ : Type} (i : Input σ) (st : σ)
    (calls : List (LibCall × Option GoString)) (m : GoString) (v : Nat)
    (hv : v < uintModulus) :
    dispatch i st calls (formatUint v) m = callAndFinish i st calls (LibCall.migrate v) := by
  obtain ⟨_, hdig, hparse⟩ := formatUint_spec v hv
  have hne : ∀ lit : GoString, (∃ c ∈ lit, ¬('0' ≤ c ∧ c ≤ '9')) → formatUint v ≠ lit :=
    fun lit h => digits_ne_of_letter _ lit hdig h
  have n1 : ¬(formatUint v = "up".toList ∨ formatUint v = "u".toList) := by
    rintro (h | h) <;> exact hne _ (by decide) h
  have n2 : ¬(formatUint v = "down".toList ∨ formatUint v = "d".toList) := by
    rintro (h | h) <;> exact hne _ (by decide) h
  have n3 : ¬(formatUint v = "force".toList ∨ formatUint v = "f".toList) := by
    rintro (h | h) <;> exact hne _ (by decide) h
  have n4 : ¬(formatUint v = "step".toList ∨ formatUint v = "steps".toList
      ∨ formatUint v = "s".toList) := by
    rintro (h | h | h) <;> exact hne _ (by decide) h
  have n5 : ¬(formatUint v = "sync".toList) := hne _ (by decide)
  have n6 : ¬(formatUint v = "new".toList) := hne _ (by decide)
  have n7 : ¬(formatUint v = "check".toList ∨ formatUint v = "c".toList) := by
    rintro (h | h) <;> exact hne _ (by decide) h
  unfold dispatch
  rw [if_neg n1, if_neg n2, if_neg n3, if_neg n4, if_neg n5, if_neg n6, if_neg n7, hparse]
  dsimp only
  rw [Nat.mod_eq_of_lt hv]

theorem formatUint_not_exempt (v : Nat) (hv : v < uintModulus) :
    formatUint v ≠ "new".toList ∧ formatUint v ≠ "check".toList
      ∧ formatUint v ≠ "c".toList ∧ formatUint v ≠ "_default_".toList := by
  obtain ⟨_, hdig, _⟩ := formatUint_spec v hv
  exact ⟨digits_ne_of_letter _ _ hdig (by decide), digits_ne_of_letter _ _ hdig (by decide),
    digits_ne_of_letter _ _ hdig (by decide), digits_ne_of_letter _ _ hdig (by decide)⟩

/-- With the command `sync` in effect, the body of `main` is the same for
the command `sync` and for the decimal text of the target of `sync`. -/
theorem mainBody_sync_eq_decimal {σ : Type} (i : Input σ) :
    mainBody i (formatUint (latestVersion i)) = mainBody i "sync".toList := by
  have hv : latestVersion i < uintModulus := maxMigrationVersion_lt _
  obtain ⟨e1, e2, e3, _⟩ := formatUint_not_exempt _ hv
  have hc1 : (formatUint (latestVersion i) ≠ "new".toList
      ∧ formatUint (latestVersion i) ≠ "check".toList
      ∧ formatUint (latestVersion i) ≠ "c".toList) ↔ True :=
    ⟨fun _ => trivial, fun _ => ⟨e1, e2, e3⟩⟩
  have hc2 : ("sync".toList ≠ "new".toList ∧ "sync".toList ≠ "check".toList
      ∧ "sync".toList ≠ "c".toList) ↔ True := by decide
  have hd : ∀ b, setupAndDispatch i b (formatUint (latestVersion i)) (resolveMigrations i)
      = setupAndDispatch i b "sync".toList (resolveMigrations i) := by
    intro b
    unfold setupAndDispatch
    simp only [dispatch_sync, dispatch_decimal _ _ _ _ _ hv]
    rfl
  unfold mainBody
  simp only [hc1, hc2, hd]

theorem resolveCommand_decimal {σ : Type} (i : Input σ) (v : Nat) (hv : v < uintModulus) :
    resolveCommand { i with flagCommand := formatUint v } = formatUint v := by
  obtain ⟨_, _, _, e4⟩ := formatUint_not_exempt v hv
  unfold resolveCommand
  dsimp only
  split_ifs <;> rfl

/-- A `sync` run that reaches the command switch is the call of
`m.Migrate` on the store left by the setup, followed by the end of the run. -/
theorem mainBody_sync_reach {σ : Type} (i : Input σ)
    (h : (mainBody i "sync".toList).point.beforeSwitch = false) :
    mainBody i "sync".toList =
      callAndFinish i (storeAtSwitch i)
        [(LibCall.withInstance, none),
         (LibCall.newWithDatabaseInstance (resolveMigrations i), none)]
        (LibCall.migrate (latestVersion i)) := by
  unfold mainBody at h ⊢
  dsimp only at h ⊢
  split_ifs at h ⊢ with h1 h2 h3
  · simp [ExitPoint.beforeSwitch] at h
  · simp [ExitPoint.beforeSwitch] at h
  · simp [ExitPoint.beforeSwitch] at h
  · have hnone : i.sqlOpen (withMultiStatements (resolveDatabaseURL i)) = none := by
      cases hopen : i.sqlOpen (withMultiStatements (resolveDatabaseURL i)) with
      | none => rfl
      | some e =>
        exfalso
        apply h2
        rw [hopen]
        exact ⟨rfl, by decide⟩
    rw [hnone] at h ⊢
    unfold setupAndDispatch at h ⊢
    simp only [Option.isNone_none, if_true] at h ⊢
    unfold storeAtSwitch
    cases h4 : (i.lib LibCall.withInstance i.store).2 with
    | some e => rw [h4] at h; simp [ExitPoint.beforeSwitch] at h
    | none =>
      rw [h4] at h
      dsimp only at h ⊢
      cases h5 : (i.lib (LibCall.newWithDatabaseInstance (resolveMigrations i))
          (i.lib LibCall.withInstance i.store).1).2 with
      | some e => rw [h5] at h; simp [ExitPoint.beforeSwitch] at h
      | none =>
        dsimp only
        rw [dispatch_sync]
        rfl

/-- What the end of a run makes of the error of the library call. -/
theorem finish_spec {σ : Type} (st : σ) (calls : List (LibCall × Option GoString))
    (err : Option GoString) :
    (finish st calls err).store = st ∧ (finish st calls err).calls = calls ∧
    (finish st calls err).written = [] ∧
    (err = none →
      (finish st calls err).status = 0 ∧ (finish st calls err).point = ExitPoint.success) ∧
    (err = some "no change".toList →
      (finish st calls err).status = 0 ∧ (finish st calls err).point = ExitPoint.noChange) ∧
    (∀ msg, err = some msg → msg ≠ "no change".toList →
      (finish st calls err).status = 10 ∧
      (finish st calls err).point = ExitPoint.failed msg) := by
  unfold finish
  cases err with
  | none =>
    refine ⟨rfl, rfl, rfl, ?_, ?_, ?_⟩
    · intro _
      exact ⟨rfl, rfl⟩
    · intro h
      cases h
    · intro msg h
      cases h
  | some e =>
    by_cases he : e = "no change".toList
    · dsimp only
      rw [if_pos he]
      refine ⟨rfl, rfl, rfl, ?_, ?_, ?_⟩
      · intro h
        cases h
      · intro _
        exact ⟨rfl, rfl⟩
      · intro msg h hne
        exact absurd ((Option.some.inj h).symm.trans he) hne
    · dsimp only
      rw [if_neg he]
      refine ⟨rfl, rfl, rfl, ?_, ?_, ?_⟩
      · intro h
        cases h
      · intro h
        exact absurd (Option.some.inj h) he
      · intro msg h _
        cases h
        exact ⟨rfl, rfl⟩

theorem walkBefore_asymm (p q : GoString) (h : walkBefore p q) : ¬walkBefore q p := by
  unfold walkBefore at h ⊢
  exact asymm h

/-- Two walks from the same root over the same entries are the same list. -/
theorem walk_unique (root : GoString) (l₁ l₂ : List GoString) (h : l₁.Perm l₂)
    (h₁ : IsWalk root l₁) (h₂ : IsWalk root l₂) : l₁ = l₂ := by
  haveI : IsAntisymm GoString walkBefore :=
    ⟨fun a b hab hba => absurd hba (walkBefore_asymm a b hab)⟩
  cases l₁ with
  | nil => exact (List.Perm.nil_eq h)
  | cons a t₁ =>
    cases l₂ with
    | nil => exact absurd h.length_eq (by simp)
    | cons b t₂ =>
      have ha : a = root := by simpa using h₁.1
      have hb : b = root := by simpa using h₂.1
      rw [ha, hb] at h
      have ht : t₁.Perm t₂ := (List.perm_cons root).mp h
      rw [ha, hb, List.eq_of_perm_of_sorted ht h₁.2 h₂.2]

/-! ## Facts about the files of `new` -/

theorem HasSuffix_iff (s suf : GoString) : HasSuffix s suf = true ↔ suf <:+ s := by
  unfold HasSuffix
  exact List.isSuffixOf_iff_suffix

/-- The path of a file of `new`: the file name `digits_name.suffix` joined to
a directory keeps the name as its file part, its key is the digits, and it
ends with the suffix. -/
theorem newFile_facts (dir ds name suf : GoString)
    (hds : ∀ c ∈ ds, '0' ≤ c ∧ c ≤ '9') (hname : ∀ c ∈ name, c ≠ '/')
    (hsuf : ∀ c ∈ suf, c ≠ '/') :
    fileNameOf (Join dir (ds ++ "_".toList ++ name ++ suf)) = ds ++ "_".toList ++ name ++ suf ∧
    numOf (Join dir (ds ++ "_".toList ++ name ++ suf)) = ds ∧
    suf <:+ Join dir (ds ++ "_".toList ++ name ++ suf) := by
  have hshape : ds ++ "_".toList ++ name ++ suf = ds ++ '_' :: (name ++ suf) := by
    simp [List.append_assoc]
  have hmem : '_' ∈ ds ++ "_".toList ++ name ++ suf := by rw [hshape]; simp
  have hnoslash : ∀ c ∈ ds ++ "_".toList ++ name ++ suf, c ≠ '/' := by
    intro c hc
    rw [hshape] at hc
    rcases List.mem_append.mp hc with h | h
    · intro hc'
      rw [hc'] at h
      exact absurd (hds _ h).1 (by decide)
    · rcases List.mem_cons.mp h with h | h
      · rw [h]; decide
      · rcases List.mem_append.mp h with h | h
        · exact hname c h
        · exact hsuf c h
  have h0 : ds ++ "_".toList ++ name ++ suf ≠ [] := by
    intro h; rw [h] at hmem; simp at hmem
  have h1 : ds ++ "_".toList ++ name ++ suf ≠ ".".toList := by
    intro h; rw [h] at hmem; exact absurd hmem (by decide)
  have h2 : ds ++ "_".toList ++ name ++ suf ≠ "..".toList := by
    intro h; rw [h] at hmem; exact absurd hmem (by decide)
  obtain ⟨pre, heq, hpre⟩ := Join_last dir _ hnoslash h0 h1 h2
  have hfile : fileNameOf (Join dir (ds ++ "_".toList ++ name ++ suf))
      = ds ++ "_".toList ++ name ++ suf := by
    unfold fileNameOf
    rw [heq]
    exact Split_file pre _ hnoslash hpre
  refine ⟨hfile, ?_, ?_⟩
  · unfold numOf
    unfold fileNameOf at hfile
    rw [hfile, hshape]
    exact SplitN2_head ds _ (fun c hc => digit_ne_underscore c (hds c hc))
  · rw [heq]
    exact ⟨pre ++ (ds ++ "_".toList ++ name), by simp [List.append_assoc]⟩

theorem upKey_of_suffix (p : GoString) (h : ".up.sql".toList <:+ p) :
    upKey p = some (numOf p) ∧ downKey p = none := by
  unfold upKey downKey
  rw [if_pos ((HasSuffix_iff _ _).mpr h)]
  refine ⟨rfl, ?_⟩
  rw [if_neg]
  intro hd
  have hd' := (HasSuffix_iff _ _).mp hd
  have := List.suffix_of_suffix_length_le h hd' (by decide)
  exact absurd this (by decide)

theorem downKey_of_suffix (p : GoString) (h : ".down.sql".toList <:+ p) :
    downKey p = some (numOf p) ∧ upKey p = none := by
  unfold upKey downKey
  rw [if_pos ((HasSuffix_iff _ _).mpr h)]
  refine ⟨rfl, ?_⟩
  rw [if_neg]
  intro hu
  have hu' := (HasSuffix_iff _ _).mp hu
  have := List.suffix_of_suffix_length_le hu' h (by decide)
  exact absurd this (by decide)

/-- A key of `check` that `ParseUint` reads as a number is counted by
`maxMigrationVersion`. -/
theorem key_le_max (l : List GoString) (p : GoString) (v : Nat) (hp : p ∈ l)
    (hkey : ".up.sql".toList <:+ p ∨ ".down.sql".toList <:+ p)
    (hv : ParseUint (numOf p) = some v) : v ≤ maxMigrationVersion l := by
  have hsql : ".sql".toList <:+ p := by
    rcases hkey with h | h
    · exact List.IsSuffix.trans (by decide) h
    · exact List.IsSuffix.trans (by decide) h
  refine foldl_maxVisit_upper l 0 p v hp ?_
  unfold sqlVersion
  rw [if_pos ((HasSuffix_iff _ _).mpr hsql)]
  exact hv

theorem newCommand_created {σ : Type} (i : Input σ) (st : σ)
    (calls : List (LibCall × Option GoString)) (m name : GoString)
    (h : (newCommand i st calls m name).point = ExitPoint.created) :
    (newCommand i st calls m name).status = 0 ∧
    (newCommand i st calls m name).written =
      [(Join (TrimPrefix m "file://".toList)
          (upFileName ((maxMigrationVersion (i.walk (TrimPrefix m "file://".toList)) + 1)
            % uintModulus) name), updata),
       (Join (TrimPrefix m "file://".toList)
          (downFileName ((maxMigrationVersion (i.walk (TrimPrefix m "file://".toList)) + 1)
            % uintModulus) name), downdata)] := by
  unfold newCommand at h ⊢
  dsimp only at h ⊢
  split at h
  · cases h
  · split at h
    · cases h
    · exact ⟨rfl, rfl⟩

/-- A run of `new` that ends after the two files are written is the `new`
command on the migrations location in effect. -/
theorem main_new {σ : Type} (i : Input σ) (name : GoString) (rest : List GoString)
    (hcmd : resolveCommand i = "new".toList) (hargs : i.flagArgs = name :: rest)
    (hcreated : (main i).point = ExitPoint.created) :
    ∃ st calls, main i = newCommand i st calls (resolveMigrations i) name := by
  rw [main_eq_mainBody, hcmd] at hcreated ⊢
  unfold mainBody at hcreated ⊢
  dsimp only at hcreated ⊢
  by_cases h1 : resolveMigrations i = []
  · rw [if_pos h1] at hcreated
    cases hcreated
  rw [if_neg h1] at hcreated ⊢
  rw [if_neg (by rintro ⟨_, h, _⟩; exact h rfl)] at hcreated ⊢
  by_cases h3 : i.envSkipAll = "true".toList
  · rw [if_pos h3] at hcreated
    cases hcreated
  rw [if_neg h3] at hcreated ⊢
  unfold setupAndDispatch at hcreated ⊢
  by_cases h4 : (i.sqlOpen (withMultiStatements (resolveDatabaseURL i))).isNone = true
  · rw [if_pos h4] at hcreated ⊢
    dsimp only at hcreated ⊢
    cases h5 : (i.lib LibCall.withInstance i.store).2 with
    | some e => rw [h5] at hcreated; cases hcreated
    | none =>
      rw [h5] at hcreated
      dsimp only at hcreated ⊢
      cases h6 : (i.lib (LibCall.newWithDatabaseInstance (resolveMigrations i))
          (i.lib LibCall.withInstance i.store).1).2 with
      | some e => rw [h6] at hcreated; cases hcreated
      | none =>
        dsimp only
        rw [dispatch_new i _ _ _ name rest hargs]
        exact ⟨_, _, rfl⟩
  · rw [if_neg h4]
    rw [dispatch_new i _ _ _ name rest hargs]
    exact ⟨_, _, rfl⟩

/-! ## Facts about the `check` command -/

theorem dispatch_check {σ : Type} (i : Input σ) (st : σ)
    (calls : List (LibCall × Option GoString)) (command m : GoString)
    (hcmd : command = "check".toList ∨ command = "c".toList) :
    dispatch i st calls command m = checkCommand i st calls m := by
  unfold dispatch
  rcases hcmd with rfl | rfl
  · rw [if_neg (by decide), if_neg (by decide), if_neg (by decide), if_neg (by decide),
      if_neg (by decide), if_neg (by decide), if_pos (by decide)]
  · rw [if_neg (by decide), if_neg (by decide), if_neg (by decide), if_neg (by decide),
      if_neg (by decide), if_neg (by decide), if_pos (by decide)]

/-- A run of `check` that reaches the command switch is the `check` command
on the migrations location in effect. -/
theorem main_check {σ : Type} (i : Input σ)
    (hcmd : resolveCommand i = "check".toList ∨ resolveCommand i = "c".toList)
    (hreach : (main i).point.beforeSwitch = false) :
    ∃ st calls, main i = checkCommand i st calls (resolveMigrations i) := by
  rw [main_eq_mainBody] at hreach ⊢
  unfold mainBody at hreach ⊢
  dsimp only at hreach ⊢
  by_cases h1 : resolveMigrations i = []
  · rw [if_pos h1] at hreach
    simp [ExitPoint.beforeSwitch] at hreach
  rw [if_neg h1] at hreach ⊢
  have hexempt : ¬((i.sqlOpen (withMultiStatements (resolveDatabaseURL i))).isSome = true ∧
      (resolveCommand i ≠ "new".toList ∧ resolveCommand i ≠ "check".toList
        ∧ resolveCommand i ≠ "c".toList)) := by
    rintro ⟨_, _, h2, h3⟩
    rcases hcmd with h | h
    · exact h2 h
    · exact h3 h
  rw [if_neg hexempt] at hreach ⊢
  by_cases h3 : i.envSkipAll = "true".toList
  · rw [if_pos h3] at hreach
    simp [ExitPoint.beforeSwitch] at hreach
  rw [if_neg h3] at hreach ⊢
  unfold setupAndDispatch at hreach ⊢
  by_cases h4 : (i.sqlOpen (withMultiStatements (resolveDatabaseURL i))).isNone = true
  · rw [if_pos h4] at hreach ⊢
    dsimp only at hreach ⊢
    cases h5 : (i.lib LibCall.withInstance i.store).2 with
    | some e => rw [h5] at hreach; simp [ExitPoint.beforeSwitch] at hreach
    | none =>
      rw [h5] at hreach
      dsimp only at hreach ⊢
      cases h6 : (i.lib (LibCall.newWithDatabaseInstance (resolveMigrations i))
          (i.lib LibCall.withInstance i.store).1).2 with
      | some e => rw [h6] at hreach; simp [ExitPoint.beforeSwitch] at hreach
      | none =>
        dsimp only
        rw [dispatch_check i _ _ _ _ hcmd]
        exact ⟨_, _, rfl⟩
  · rw [if_neg h4]
    rw [dispatch_check i _ _ _ _ hcmd]
    exact ⟨_, _, rfl⟩

/-- The `check` command ends with status 0 when the walk succeeds, and with
status 9, naming a visited path and its key, when it does not. -/
theorem checkCommand_cases {σ : Type} (i : Input σ) (st : σ)
    (calls : List (LibCall × Option GoString)) (m : GoString) :
    ((checkWalk (i.walk (TrimPrefix m "file://".toList))).toBool = true ∧
      (checkCommand i st calls m).status = 0 ∧
      (checkCommand i st calls m).point = ExitPoint.allUnique) ∨
    ((checkWalk (i.walk (TrimPrefix m "file://".toList))).toBool = false ∧
      (checkCommand i st calls m).status = 9 ∧
      ∃ path, path ∈ i.walk (TrimPrefix m "file://".toList) ∧
        (checkCommand i st calls m).point = ExitPoint.duplicate (numOf path) path) := by
  unfold checkCommand
  dsimp only
  cases hw : checkWalk (i.walk (TrimPrefix m "file://".toList)) with
  | error e =>
    right
    obtain ⟨hmem, hnum⟩ := checkWalkFrom_error _ _ e hw
    refine ⟨rfl, rfl, e.2, hmem, ?_⟩
    rw [← hnum]
  | ok st1 =>
    left
    exact ⟨rfl, rfl, rfl⟩

theorem statusGroup_exitStatus (pt : ExitPoint) (a : OutcomeClass)
    (h : outcomeClass pt = some a) : statusGroup (exitStatus pt) = outcomeGroup a := by
  cases pt <;> cases a <;> simp only [outcomeClass, Option.some.injEq, reduceCtorEq] at h <;> rfl

/-! ## Properties -/

/-- C1 fails as stated: run without a usable database URL (the only way a
`check` run gets past the setup on such a directory, since the migration
library itself refuses it), `check` on the directory holding `3_a.up.sql` and
`00003_b.up.sql`, two files of version 3 and direction up, makes no library
call and ends with exit status 0. -/
theorem check_misses_duplicate_of_other_width :
    parseMigrationName (fileNameOf "migrations/3_a.up.sql".toList) = some (3, Direction.up) ∧
    parseMigrationName (fileNameOf "migrations/00003_b.up.sql".toList)
      = some (3, Direction.up) ∧
    (main (offlineInput "check".toList [] paddedTwice)).calls = [] ∧
    (main (offlineInput "check".toList [] paddedTwice)).status = 0 ∧
    (main (offlineInput "check".toList [] paddedTwice)).point = ExitPoint.allUnique := by
  decide

/-- C1, amended: when the walk of the migrations directory visits two
different paths that end in the same suffix, `.up.sql` or `.down.sql`, and
whose file names have the same text before their first underscore, a run of
`check` that reaches the command switch ends with exit status 9, and the
message names a visited path and the text before the first underscore of its
file name. -/
theorem check_detects_repeated_key {σ : Type} (i : Input σ) (p q : GoString)
    (hcmd : resolveCommand i = "check".toList ∨ resolveCommand i = "c".toList)
    (hreach : (main i).point.beforeSwitch = false)
    (hp : p ∈ i.walk (mainDirOf i)) (hq : q ∈ i.walk (mainDirOf i)) (hpq : p ≠ q)
    (hsuf : (HasSuffix p ".up.sql".toList = true ∧ HasSuffix q ".up.sql".toList = true) ∨
      (HasSuffix p ".down.sql".toList = true ∧ HasSuffix q ".down.sql".toList = true))
    (hnum : numOf p = numOf q) :
    (main i).status = 9 ∧
    ∃ path, path ∈ i.walk (mainDirOf i) ∧
      (main i).point = ExitPoint.duplicate (numOf path) path := by
  obtain ⟨st, calls, heq⟩ := main_check i hcmd hreach
  rw [heq]
  rcases checkCommand_cases i st calls (resolveMigrations i) with ⟨hok, _, _⟩ | ⟨_, hst, hpt⟩
  · exfalso
    obtain ⟨hup, hdown⟩ := (checkWalk_ok_iff _).mp hok
    rcases hsuf with ⟨h1, h2⟩ | ⟨h1, h2⟩
    · refine not_nodup_of_same_key upKey _ p q (numOf p) hp hq hpq ?_ ?_ hup
      · unfold upKey; rw [if_pos h1]
      · unfold upKey; rw [if_pos h2, hnum]
    · refine not_nodup_of_same_key downKey _ p q (numOf p) hp hq hpq ?_ ?_ hdown
      · unfold downKey; rw [if_pos h1]
      · unfold downKey; rw [if_pos h2, hnum]
  · exact ⟨hst, hpt⟩

theorem check_detects_repeated_key_witness :
    ((main (offlineInput "check".toList [] sameVersionTwice)).status = 9 ∧
      ∃ path, path ∈ sameVersionTwice ∧
        (main (offlineInput "check".toList [] sameVersionTwice)).point
          = ExitPoint.duplicate (numOf path) path) ∧
    (main (offlineInput "check".toList [] sameVersionTwice)).calls = [] ∧
    (main (offlineInput "check".toList [] sameVersionTwice)).point
      = ExitPoint.duplicate "00003".toList "migrations/00003_b.up.sql".toList :=
  ⟨check_detects_repeated_key (offlineInput "check".toList [] sameVersionTwice)
      "migrations/00003_a.up.sql".toList "migrations/00003_b.up.sql".toList
      (Or.inl (by decide)) (by decide) (by decide) (by decide) (by decide)
      (Or.inl (by decide)) (by decide),
   by decide, by decide⟩

/-- C2 fails as stated: in a directory whose only SQL file is `00009_seed.sql`,
which is no migration file, the reference `maxVersion` is 0 and
`maxMigrationVersion` returns 9. -/
theorem maxMigrationVersion_counts_other_sql :
    seedOnly.filterMap (fun path => parseMigrationName (fileNameOf path)) = [] ∧
    refMaxVersion seedOnly = 0 ∧ maxMigrationVersion seedOnly = 9 := by
  decide

/-- C2, amended: `maxMigrationVersion` returns the highest number among the
visited paths that end in `.sql` and whose file name, up to its first
underscore, is an unsigned decimal number below `2^64`; it returns 0 when
there is no such path. -/
theorem maxMigrationVersion_greatest (l : List GoString) :
    (∀ p v, p ∈ l ∧ sqlVersion p = some v → v ≤ maxMigrationVersion l) ∧
    (maxMigrationVersion l = 0 ∨ ∃ p, p ∈ l ∧ sqlVersion p = some (maxMigrationVersion l)) := by
  refine ⟨fun p v h => foldl_maxVisit_upper l 0 p v h.1 h.2, ?_⟩
  rcases foldl_maxVisit_attained l 0 with h | ⟨p, hp, hv⟩
  · exact Or.inl h
  · exact Or.inr ⟨p, hp, hv⟩

/-- C7: `check` creates the migration driver whenever `sql.Open` accepts the
database URL.  With a store that cannot be reached the run ends with status 3
after the call of `mysql.WithInstance`, on a directory that `check` accepts
(status 0, no library call) when `sql.Open` rejects the URL. -/
theorem check_needs_the_driver :
    (main { sampleInput "check".toList [] 0 threeVersions with lib := unreachableLib }).status = 3 ∧
    (main { sampleInput "check".toList [] 0 threeVersions with lib := unreachableLib }).point
      = ExitPoint.driverFailed ∧
    (main { sampleInput "check".toList [] 0 threeVersions with lib := unreachableLib }).calls
      = [(LibCall.withInstance, some "dial tcp 10.0.0.5:3306: i/o timeout".toList)] ∧
    (main { sampleInput "check".toList [] 0 threeVersions with
        lib := unreachableLib, sqlOpen := fun _ => some "invalid DSN".toList }).status = 0 ∧
    (main { sampleInput "check".toList [] 0 threeVersions with
        lib := unreachableLib, sqlOpen := fun _ => some "invalid DSN".toList }).point
      = ExitPoint.allUnique ∧
    (main { sampleInput "check".toList [] 0 threeVersions with
        lib := unreachableLib, sqlOpen := fun _ => some "invalid DSN".toList }).calls = [] := by
  decide

/-- C8 fails as stated: a directory without any migration file, holding
`notes_v1.up.sql` and `notes_v2.up.sql`, ends `check` with status 9; so does a
directory with one migration and a helper script of the same name in two
subdirectories. -/
theorem check_rejects_other_entries :
    notesOnly.filterMap (fun path => parseMigrationName (fileNameOf path)) = [] ∧
    (main (sampleInput "check".toList [] 0 notesOnly)).status = 9 ∧
    (main (sampleInput "check".toList [] 0 notesOnly)).point
      = ExitPoint.duplicate "notes".toList "migrations/notes_v2.up.sql".toList ∧
    helperInSubdirs.filterMap (fun path => parseMigrationName (fileNameOf path))
      = [(1, Direction.up)] ∧
    (main (sampleInput "check".toList [] 0 helperInSubdirs)).status = 9 ∧
    (main (sampleInput "check".toList [] 0 helperInSubdirs)).point
      = ExitPoint.duplicate "helper.down.sql".toList
          "migrations/tidb/helper.down.sql".toList := by
  decide

/-- C8, amended: a run of `check` that reaches the command switch ends with
exit status 0 exactly when the visited paths that end in `.up.sql` have
pairwise different texts before the first underscore of their file names, and
so have those that end in `.down.sql`.  Paths with neither suffix play no
part; a path with one of them does, digits or not, in any subdirectory. -/
theorem check_succeeds_iff_prefixes_differ {σ : Type} (i : Input σ)
    (hcmd : resolveCommand i = "check".toList ∨ resolveCommand i = "c".toList)
    (hreach : (main i).point.beforeSwitch = false) :
    (main i).status = 0 ↔
      ((i.walk (mainDirOf i)).filterMap upKey).Nodup ∧
      ((i.walk (mainDirOf i)).filterMap downKey).Nodup := by
  obtain ⟨st, calls, heq⟩ := main_check i hcmd hreach
  rw [heq]
  have hiff := checkWalk_ok_iff (i.walk (mainDirOf i))
  rcases checkCommand_cases i st calls (resolveMigrations i) with ⟨hok, hst, _⟩ | ⟨hbad, hst, _⟩
  · exact ⟨fun _ => hiff.mp hok, fun _ => hst⟩
  · constructor
    · intro h0
      rw [hst] at h0
      cases h0
    · intro hnd
      have := hiff.mpr hnd
      unfold mainDirOf at this
      rw [hbad] at this
      cases this

theorem check_succeeds_iff_prefixes_differ_witness :
    ((main (sampleInput "check".toList [] 0 threeVersions)).status = 0 ↔
      (threeVersions.filterMap upKey).Nodup ∧ (threeVersions.filterMap downKey).Nodup) ∧
    (main (sampleInput "check".toList [] 0 threeVersions)).status = 0 :=
  ⟨check_succeeds_iff_prefixes_differ (sampleInput "check".toList [] 0 threeVersions)
    (Or.inl (by decide)) (by decide), by decide⟩

/-- C9: for two orders of the same entries, `check` succeeds on both or fails
with the duplicate-version status on both, and `maxMigrationVersion` returns
the same number; and when both are orders in which `filepath.Walk` visits
from the same root (the root first, then the paths below it in lexical
order), `check` gives the same outcome, the named version and path
included. -/
theorem discovery_order_independent (root : GoString) (l₁ l₂ : List GoString)
    (h : l₁.Perm l₂) :
    ((checkWalk l₁).toBool = (checkWalk l₂).toBool ∧
      maxMigrationVersion l₁ = maxMigrationVersion l₂) ∧
    (IsWalk root l₁ → IsWalk root l₂ → checkWalk l₁ = checkWalk l₂) := by
  refine ⟨⟨?_, ?_⟩, ?_⟩
  · have hiff : (checkWalk l₁).toBool = true ↔ (checkWalk l₂).toBool = true := by
      rw [checkWalk_ok_iff, checkWalk_ok_iff,
        (h.filterMap upKey).nodup_iff, (h.filterMap downKey).nodup_iff]
    cases h1 : (checkWalk l₁).toBool <;> cases h2 : (checkWalk l₂).toBool <;> simp_all
  · unfold maxMigrationVersion
    exact h.foldl_eq' (fun x _ y _ z => maxVisit_comm z x y) 0
  · intro h₁ h₂
    rw [walk_unique root l₁ l₂ h h₁ h₂]

theorem discovery_order_independent_witness :
    IsWalk "migrations".toList twoDuplicates ∧
    (((checkWalk twoDuplicates).toBool = (checkWalk twoDuplicates.reverse).toBool ∧
      maxMigrationVersion twoDuplicates = maxMigrationVersion twoDuplicates.reverse) ∧
    (IsWalk "migrations".toList twoDuplicates →
      IsWalk "migrations".toList twoDuplicates.reverse →
      checkWalk twoDuplicates = checkWalk twoDuplicates.reverse)) ∧
    checkWalk twoDuplicates
      = Except.error ("00001".toList, "migrations/00001_b.up.sql".toList) ∧
    maxMigrationVersion twoDuplicates = 2 :=
  ⟨by decide,
   discovery_order_independent "migrations".toList twoDuplicates twoDuplicates.reverse
     (List.reverse_perm twoDuplicates).symm,
   by decide, by decide⟩

/-- C5: when an operation of the engine (up, down, force, steps, migrate)
returns the error "no change", the run ends with exit status 0, at the place
of the "no change" outcome. -/
theorem no_change_is_success {σ : Type} (i : Input σ) (c : LibCall)
    (hop : c.isOperation = true)
    (hcall : (c, some "no change".toList) ∈ (main i).calls) :
    (main i).status = 0 ∧ (main i).point = ExitPoint.noChange := by
  have hs := main_settled i
  have hpt := hs.2 c hop hcall
  refine ⟨?_, hpt⟩
  rw [hs.1, hpt]
  rfl

theorem no_change_is_success_witness :
    (LibCall.migrate 3, some "no change".toList)
      ∈ (main (sampleInput "sync".toList [] 3 threeVersions)).calls ∧
    (main (sampleInput "sync".toList [] 3 threeVersions)).status = 0 ∧
    (main (sampleInput "sync".toList [] 3 threeVersions)).point = ExitPoint.noChange :=
  ⟨by decide,
   no_change_is_success (sampleInput "sync".toList [] 3 threeVersions) (LibCall.migrate 3)
     (by decide) (by decide)⟩

/-- C6 fails as stated: a run that ends in success and a run that ends in
"no change" both have exit status 0, and a run that ends in an execution
failure and a run with an unknown command both have exit status 10. -/
theorem exit_status_shared_by_classes :
    outcomeClass (main (sampleInput "sync".toList [] 1 threeVersions)).point
      = some OutcomeClass.success ∧
    (main (sampleInput "sync".toList [] 1 threeVersions)).status = 0 ∧
    outcomeClass (main (sampleInput "sync".toList [] 3 threeVersions)).point
      = some OutcomeClass.noChange ∧
    (main (sampleInput "sync".toList [] 3 threeVersions)).status = 0 ∧
    outcomeClass (main (sampleInput "step".toList ["1".toList] 3 threeVersions)).point
      = some OutcomeClass.executionFailure ∧
    (main (sampleInput "step".toList ["1".toList] 3 threeVersions)).status = 10 ∧
    outcomeClass (main (sampleInput "status".toList [] 3 threeVersions)).point
      = some OutcomeClass.usageError ∧
    (main (sampleInput "status".toList [] 3 threeVersions)).status = 10 := by
  decide

/-- C6, amended: the exit status tells three groups of outcomes apart: success
or "no change" (status 0), validation failure (status 9), execution failure or
usage error (any other status).  Two runs that end in different groups have
different exit statuses. -/
theorem exit_status_separates_groups {σ τ : Type} (i : Input σ) (j : Input τ)
    (a b : OutcomeClass)
    (ha : outcomeClass (main i).point = some a)
    (hb : outcomeClass (main j).point = some b)
    (hab : outcomeGroup a ≠ outcomeGroup b) :
    (main i).status ≠ (main j).status := by
  intro heq
  apply hab
  rw [← statusGroup_exitStatus _ a ha, ← statusGroup_exitStatus _ b hb,
    ← (main_settled i).1, ← (main_settled j).1, heq]

theorem exit_status_separates_groups_witness :
    (main (sampleInput "check".toList [] 0 sameVersionTwice)).status
      ≠ (main (sampleInput "step".toList ["1".toList] 3 threeVersions)).status :=
  exit_status_separates_groups (sampleInput "check".toList [] 0 sameVersionTwice)
    (sampleInput "step".toList ["1".toList] 3 threeVersions)
    OutcomeClass.validationFailure OutcomeClass.executionFailure
    (by decide) (by decide) (by decide)

/-- C3: with the command `sync` in effect, the run is the run of the program
with the command set to the decimal text of `maxMigrationVersion` of the
migrations directory (same exit status, store, library calls and files); and
a `sync` run that reaches the command switch calls the engine exactly once,
`m.Migrate` with that version on the store left by the setup: the store of
the outcome is the store this call returns, the call is logged with the error
it returns, and that error decides the exit (none: success, status 0;
"no change": status 0; any other: status 10). -/
theorem sync_is_migrate_to_latest {σ : Type} (i : Input σ)
    (hsync : resolveCommand i = "sync".toList) :
    main { i with flagCommand := formatUint (latestVersion i) } = main i ∧
    ((main i).point.beforeSwitch = false →
      (main i).store = (i.lib (LibCall.migrate (latestVersion i)) (storeAtSwitch i)).1 ∧
      (main i).calls =
        [(LibCall.withInstance, none),
         (LibCall.newWithDatabaseInstance (resolveMigrations i), none),
         (LibCall.migrate (latestVersion i),
           (i.lib (LibCall.migrate (latestVersion i)) (storeAtSwitch i)).2)] ∧
      (main i).written = [] ∧
      ((i.lib (LibCall.migrate (latestVersion i)) (storeAtSwitch i)).2 = none →
        (main i).status = 0 ∧ (main i).point = ExitPoint.success) ∧
      ((i.lib (LibCall.migrate (latestVersion i)) (storeAtSwitch i)).2
          = some "no change".toList →
        (main i).status = 0 ∧ (main i).point = ExitPoint.noChange) ∧
      (∀ msg, (i.lib (LibCall.migrate (latestVersion i)) (storeAtSwitch i)).2 = some msg →
        msg ≠ "no change".toList →
        (main i).status = 10 ∧ (main i).point = ExitPoint.failed msg)) := by
  have hv : latestVersion i < uintModulus := maxMigrationVersion_lt _
  constructor
  · rw [main_eq_mainBody, main_eq_mainBody, hsync, resolveCommand_decimal i _ hv]
    exact mainBody_sync_eq_decimal i
  · rw [main_eq_mainBody, hsync]
    intro hreach
    rw [mainBody_sync_reach i hreach]
    unfold callAndFinish
    exact finish_spec _ _ _

theorem sync_is_migrate_to_latest_witness :
    (main { sampleInput "sync".toList [] 1 threeVersions with
        flagCommand := formatUint (latestVersion (sampleInput "sync".toList [] 1 threeVersions)) }
      = main (sampleInput "sync".toList [] 1 threeVersions) ∧
    ((main (sampleInput "sync".toList [] 1 threeVersions)).point.beforeSwitch = false →
      (main (sampleInput "sync".toList [] 1 threeVersions)).store
        = (sampleLib (LibCall.migrate (latestVersion (sampleInput "sync".toList [] 1 threeVersions)))
            (storeAtSwitch (sampleInput "sync".toList [] 1 threeVersions))).1 ∧
      (main (sampleInput "sync".toList [] 1 threeVersions)).calls =
        [(LibCall.withInstance, none),
         (LibCall.newWithDatabaseInstance
            (resolveMigrations (sampleInput "sync".toList [] 1 threeVersions)), none),
         (LibCall.migrate (latestVersion (sampleInput "sync".toList [] 1 threeVersions)),
           (sampleLib (LibCall.migrate (latestVersion (sampleInput "sync".toList [] 1 threeVersions)))
            (storeAtSwitch (sampleInput "sync".toList [] 1 threeVersions))).2)] ∧
      (main (sampleInput "sync".toList [] 1 threeVersions)).written = [] ∧
      ((sampleLib (LibCall.migrate (latestVersion (sampleInput "sync".toList [] 1 threeVersions)))
            (storeAtSwitch (sampleInput "sync".toList [] 1 threeVersions))).2 = none →
        (main (sampleInput "sync".toList [] 1 threeVersions)).status = 0 ∧
        (main (sampleInput "sync".toList [] 1 threeVersions)).point = ExitPoint.success) ∧
      ((sampleLib (LibCall.migrate (latestVersion (sampleInput "sync".toList [] 1 threeVersions)))
            (storeAtSwitch (sampleInput "sync".toList [] 1 threeVersions))).2
          = some "no change".toList →
        (main (sampleInput "sync".toList [] 1 threeVersions)).status = 0 ∧
        (main (sampleInput "sync".toList [] 1 threeVersions)).point = ExitPoint.noChange) ∧
      (∀ msg, (sampleLib (LibCall.migrate (latestVersion (sampleInput "sync".toList [] 1 threeVersions)))
            (storeAtSwitch (sampleInput "sync".toList [] 1 threeVersions))).2 = some msg →
        msg ≠ "no change".toList →
        (main (sampleInput "sync".toList [] 1 threeVersions)).status = 10 ∧
        (main (sampleInput "sync".toList [] 1 threeVersions)).point = ExitPoint.failed msg))) ∧
    latestVersion (sampleInput "sync".toList [] 1 threeVersions) = 3 ∧
    (main (sampleInput "sync".toList [] 1 threeVersions)).store = 3 ∧
    (main (sampleInput "sync".toList [] 1 threeVersions)).status = 0 ∧
    (main (sampleInput "sync".toList [] 1 threeVersions)).calls =
      [(LibCall.withInstance, none),
       (LibCall.newWithDatabaseInstance "file://migrations".toList, none),
       (LibCall.migrate 3, none)] :=
  ⟨sync_is_migrate_to_latest (sampleInput "sync".toList [] 1 threeVersions) (by decide),
   by decide, by decide, by decide, by decide⟩

/-- C4 fails as stated: when the highest version is the largest `uint`, the
number `new` writes wraps to `00000`; and with a name that holds path
separators the files are not written in the migrations directory. -/
theorem new_wraps_and_follows_separators :
    maxMigrationVersion lastVersion = 18446744073709551615 ∧
    (main (sampleInput "new".toList ["add_users".toList] 0 lastVersion)).written.map Prod.fst
      = ["migrations/00000_add_users.up.sql".toList,
         "migrations/00000_add_users.down.sql".toList] ∧
    maxMigrationVersion upToSeven = 7 ∧
    (main (sampleInput "new".toList ["a/../../b".toList] 0 upToSeven)).written.map Prod.fst
      = ["b.up.sql".toList, "b.down.sql".toList] := by
  decide

/-- C4, amended: when the highest version `m` of the migrations directory is
below the largest `uint` and the name `n` holds no path separator, a run of
`new n` that ends after its two writes has exit status 0 and has written
exactly two files: the directory joined with `<v>_<n>.up.sql` and with
`<v>_<n>.down.sql`, `<v>` being `m+1` in decimal with zeros in front up to
five digits, each with its placeholder body; the file part of each path is
that name. -/
theorem new_writes_two_files {σ : Type} (i : Input σ) (name : GoString)
    (rest : List GoString)
    (hcmd : resolveCommand i = "new".toList) (hargs : i.flagArgs = name :: rest)
    (hname : ∀ c ∈ name, c ≠ '/')
    (hmax : latestVersion i + 1 < uintModulus)
    (hcreated : (main i).point = ExitPoint.created) :
    (main i).status = 0 ∧
    (main i).written =
      [(Join (mainDirOf i) (upFileName (latestVersion i + 1) name), updata),
       (Join (mainDirOf i) (downFileName (latestVersion i + 1) name), downdata)] ∧
    fileNameOf (Join (mainDirOf i) (upFileName (latestVersion i + 1) name))
      = upFileName (latestVersion i + 1) name ∧
    fileNameOf (Join (mainDirOf i) (downFileName (latestVersion i + 1) name))
      = downFileName (latestVersion i + 1) name := by
  obtain ⟨st, calls, heq⟩ := main_new i name rest hcmd hargs hcreated
  rw [heq] at hcreated ⊢
  obtain ⟨hst, hwr⟩ := newCommand_created i st calls _ name hcreated
  have hmod : (maxMigrationVersion (i.walk (TrimPrefix (resolveMigrations i) "file://".toList))
      + 1) % uintModulus = latestVersion i + 1 := Nat.mod_eq_of_lt hmax
  rw [hmod] at hwr
  obtain ⟨_, hdig, _⟩ := formatUint05_spec _ hmax
  refine ⟨hst, hwr, ?_, ?_⟩
  · exact (newFile_facts (mainDirOf i) _ name ".up.sql".toList hdig hname (by decide)).1
  · exact (newFile_facts (mainDirOf i) _ name ".down.sql".toList hdig hname (by decide)).1

theorem new_writes_two_files_witness :
    (main (sampleInput "new".toList ["add_users".toList] 0 upToSeven)).status = 0 ∧
    (main (sampleInput "new".toList ["add_users".toList] 0 upToSeven)).written =
      [("migrations/00008_add_users.up.sql".toList,
          "-- write your UP migration here\n".toList),
       ("migrations/00008_add_users.down.sql".toList,
          "-- write your DOWN migration here\n".toList)] ∧
    fileNameOf "migrations/00008_add_users.up.sql".toList
      = "00008_add_users.up.sql".toList ∧
    fileNameOf "migrations/00008_add_users.down.sql".toList
      = "00008_add_users.down.sql".toList :=
  new_writes_two_files (sampleInput "new".toList ["add_users".toList] 0 upToSeven)
    "add_users".toList [] (by decide) rfl (by decide) (by decide) (by decide)

/-- C10: on a directory that passes `check`, with a highest version below the
largest `uint`, after a run of `new` with a name without path separator the
directory with the two written files added, visited in any order, still
passes `check`. -/
theorem new_preserves_check {σ : Type} (i : Input σ) (name : GoString)
    (rest : List GoString) (l' : List GoString)
    (hcmd : resolveCommand i = "new".toList) (hargs : i.flagArgs = name :: rest)
    (hname : ∀ c ∈ name, c ≠ '/')
    (hmax : latestVersion i + 1 < uintModulus)
    (hcreated : (main i).point = ExitPoint.created)
    (hcheck : (checkWalk (i.walk (mainDirOf i))).toBool = true)
    (hperm : l'.Perm ((main i).written.map Prod.fst ++ i.walk (mainDirOf i))) :
    (checkWalk l').toBool = true := by
  obtain ⟨st, calls, heq⟩ := main_new i name rest hcmd hargs hcreated
  rw [heq] at hcreated hperm
  obtain ⟨_, hwr⟩ := newCommand_created i st calls _ name hcreated
  have hmod : (maxMigrationVersion (i.walk (TrimPrefix (resolveMigrations i) "file://".toList))
      + 1) % uintModulus = latestVersion i + 1 := Nat.mod_eq_of_lt hmax
  rw [hmod] at hwr
  rw [hwr] at hperm
  obtain ⟨_, hdig, hparse⟩ := formatUint05_spec _ hmax
  obtain ⟨_, hnumU, hsufU⟩ :=
    newFile_facts (mainDirOf i) _ name ".up.sql".toList hdig hname (by decide)
  obtain ⟨_, hnumD, hsufD⟩ :=
    newFile_facts (mainDirOf i) _ name ".down.sql".toList hdig hname (by decide)
  obtain ⟨hU1, hU2⟩ := upKey_of_suffix _ hsufU
  obtain ⟨hD1, hD2⟩ := downKey_of_suffix _ hsufD
  rw [hnumU] at hU1
  rw [hnumD] at hD1
  obtain ⟨hupOld, hdownOld⟩ := (checkWalk_ok_iff _).mp hcheck
  have hfreshU : formatUint05 (latestVersion i + 1)
      ∉ (i.walk (mainDirOf i)).filterMap upKey := by
    intro hmem
    obtain ⟨p, hp, hk⟩ := List.mem_filterMap.mp hmem
    unfold upKey at hk
    split_ifs at hk with hs
    have hnum : numOf p = formatUint05 (latestVersion i + 1) := Option.some.inj hk
    have := key_le_max _ p (latestVersion i + 1) hp
      (Or.inl ((HasSuffix_iff _ _).mp hs)) (by rw [hnum]; exact hparse)
    unfold latestVersion at this
    omega
  have hfreshD : formatUint05 (latestVersion i + 1)
      ∉ (i.walk (mainDirOf i)).filterMap downKey := by
    intro hmem
    obtain ⟨p, hp, hk⟩ := List.mem_filterMap.mp hmem
    unfold downKey at hk
    split_ifs at hk with hs
    have hnum : numOf p = formatUint05 (latestVersion i + 1) := Option.some.inj hk
    have := key_le_max _ p (latestVersion i + 1) hp
      (Or.inr ((HasSuffix_iff _ _).mp hs)) (by rw [hnum]; exact hparse)
    unfold latestVersion at this
    omega
  have hperm' : l'.Perm
      (Join (mainDirOf i)
          (formatUint05 (latestVersion i + 1) ++ "_".toList ++ name ++ ".up.sql".toList)
        :: Join (mainDirOf i)
          (formatUint05 (latestVersion i + 1) ++ "_".toList ++ name ++ ".down.sql".toList)
        :: i.walk (mainDirOf i)) := hperm
  rw [checkWalk_ok_iff, (hperm'.filterMap upKey).nodup_iff,
    (hperm'.filterMap downKey).nodup_iff]
  rw [List.filterMap_cons_some hU1, List.filterMap_cons_none hD2,
    List.filterMap_cons_none hU2, List.filterMap_cons_some hD1]
  exact ⟨List.nodup_cons.mpr ⟨hfreshU, hupOld⟩, List.nodup_cons.mpr ⟨hfreshD, hdownOld⟩⟩

theorem new_preserves_check_witness :
    (checkWalk upToSeven).toBool = true ∧ (checkWalk upToEight).toBool = true :=
  ⟨by decide,
   new_preserves_check (sampleInput "new".toList ["add_users".toList] 0 upToSeven)
     "add_users".toList [] upToEight (by decide) rfl (by decide) (by decide) (by decide)
     (by decide) (by decide)⟩

end MigrateCli
